import Mathlib

/-!
Verification of the B+Tree node layer of go-database (src/btree.go).

A page (`BNode`) is modelled as a list of bytes (`List Nat`, one entry
per byte).  Go's `uint16` arithmetic on positions and stored fields is
modelled as arithmetic modulo 65536, applied exactly where the Go code
computes in `uint16`.  Functions that mutate a caller-owned buffer in Go
are modelled as functions returning the updated buffer.

Functions of src/btree.go that are declared without a body
(`setPtr`, `setOffset`, `getVal`, `nodeAppendRange`, and the missing
return of `offsetPos`) are modelled from the spec; each such definition
carries a doc comment starting with `Modelled from the spec:`.
-/

/-- Reduction modulo 2^16, Go `uint16` conversion/arithmetic. -/
def u16 (x : Nat) : Nat := x % 65536

/-- Little-endian two-byte encoding of a value, as written by
`binary.LittleEndian.PutUint16`. -/
def u16le (v : Nat) : List Nat := [v % 256, v / 256 % 256]

/-- Little-endian eight-byte encoding, as written by `PutUint64`. -/
def u64le (v : Nat) : List Nat :=
  [v % 256, v / 256 % 256, v / 256 ^ 2 % 256, v / 256 ^ 3 % 256,
   v / 256 ^ 4 % 256, v / 256 ^ 5 % 256, v / 256 ^ 6 % 256, v / 256 ^ 7 % 256]

/-- A zero-filled byte buffer, as produced by Go `make([]byte, n)`. -/
def zeros (n : Nat) : List Nat := List.replicate n 0

/-- `type BNode []byte`. -/
abbrev BNode := List Nat

/-- Read one byte. -/
def readByte (node : BNode) (pos : Nat) : Nat := node.getD pos 0

/-- `binary.LittleEndian.Uint16(node[pos:])`. -/
def readU16 (node : BNode) (pos : Nat) : Nat :=
  readByte node pos + 256 * readByte node (pos + 1)

/-- `binary.LittleEndian.Uint64(node[pos:])`. -/
def readU64 (node : BNode) (pos : Nat) : Nat :=
  readByte node pos + 256 * readByte node (pos + 1)
    + 256 ^ 2 * readByte node (pos + 2) + 256 ^ 3 * readByte node (pos + 3)
    + 256 ^ 4 * readByte node (pos + 4) + 256 ^ 5 * readByte node (pos + 5)
    + 256 ^ 6 * readByte node (pos + 6) + 256 ^ 7 * readByte node (pos + 7)

/-- Write a run of bytes starting at `pos` (Go `copy(node[pos:], bs)`;
writes past the end of the buffer are dropped, as `copy` truncates). -/
def writeBytes : BNode → Nat → List Nat → BNode
  | node, _, [] => node
  | node, pos, b :: bs => writeBytes (node.set pos b) (pos + 1) bs

/-- `binary.LittleEndian.PutUint16(node[pos:], uint16(v))`. -/
def writeU16 (node : BNode) (pos v : Nat) : BNode := writeBytes node pos (u16le v)

/-- `binary.LittleEndian.PutUint64(node[pos:], v)`. -/
def writeU64 (node : BNode) (pos v : Nat) : BNode := writeBytes node pos (u64le v)

def HEADER : Nat := 4
def BTREE_PAGE_SIZE : Nat := 4096
def BTREE_MAX_KEY_SIZE : Nat := 1000
def BTREE_MAX_VAL_SIZE : Nat := 3000
def BNODE_NODE : Nat := 1
def BNODE_LEAF : Nat := 2

/-- The quantity computed in `func init()`:
`HEADER + 8 + 2 + 4 + BTREE_MAX_KEY_SIZE + BTREE_MAX_VAL_SIZE`. -/
def node1max : Nat := HEADER + 8 + 2 + 4 + BTREE_MAX_KEY_SIZE + BTREE_MAX_VAL_SIZE

/-- `type BTree struct`: root page id plus the page-store callbacks. -/
structure BTree where
  root : Nat
  get : Nat → List Nat
  new : List Nat → Nat
  del : Nat → Unit

/-- `func (node BNode) btype() uint16`. -/
def btype (node : BNode) : Nat := readU16 node 0

/-- `func (node BNode) nkeys() uint16`. -/
def nkeys (node : BNode) : Nat := readU16 node 2

/-- `func (node BNode) setHeader(btype uint16, nkeys uint16)`. -/
def setHeader (node : BNode) (t n : Nat) : BNode :=
  writeU16 (writeU16 node 0 t) 2 n

/-- `func (node BNode) getPtr(idx uint16) uint64`.
Assertion in source: `idx < node.nkeys()`. -/
def getPtr (node : BNode) (idx : Nat) : Nat :=
  readU64 node (u16 (HEADER + 8 * idx))

/-- Modelled from the spec: `setPtr` is declared without a body in
src/btree.go; §6 fixes the pointer table as one little-endian u64 per
key at byte offset `4 + 8*i`. -/
def setPtr (node : BNode) (idx v : Nat) : BNode :=
  writeU64 node (u16 (HEADER + 8 * idx)) v

/-- Modelled from the spec: `offsetPos` in src/btree.go asserts
`1 <= idx && idx <= node.nkeys()` but is missing its return statement;
§6 places the offset table directly after the pointer table, one u16
per key, `offset[0]` implicit, so entry `idx` lives at
`HEADER + 8*nkeys + 2*(idx-1)`. -/
def offsetPos (node : BNode) (idx : Nat) : Nat :=
  u16 (HEADER + 8 * nkeys node + 2 * (idx - 1))

/-- `func (node BNode) getOffset(idx uint16) uint16`. -/
def getOffset (node : BNode) (idx : Nat) : Nat :=
  if idx = 0 then 0 else readU16 node (offsetPos node idx)

/-- Modelled from the spec: `setOffset` is declared without a body in
src/btree.go; it stores a u16 at the offset-table slot of `idx`
(`set-offset(i, value)` of §4.1). -/
def setOffset (node : BNode) (idx off : Nat) : BNode :=
  writeU16 node (offsetPos node idx) off

/-- `func (node BNode) kvPos(idx uint16) uint16`:
`HEADER + 8*nkeys + 2*nkeys + getOffset(idx)`, in uint16 arithmetic.
Assertion in source: `idx <= node.nkeys()`. -/
def kvPos (node : BNode) (idx : Nat) : Nat :=
  u16 (HEADER + 8 * nkeys node + 2 * nkeys node + getOffset node idx)

/-- `func (node BNode) getKey(idx uint16) []byte`.
Assertion in source: `idx < node.nkeys()`. -/
def getKey (node : BNode) (idx : Nat) : List Nat :=
  (node.drop (u16 (kvPos node idx + 4))).take (readU16 node (kvPos node idx))

/-- Modelled from the spec: `getVal` is declared without a body in
src/btree.go; per §3 the value bytes follow the key bytes of record
`idx`, with its length in the second u16 of the record header. -/
def getVal (node : BNode) (idx : Nat) : List Nat :=
  (node.drop (u16 (kvPos node idx + 4 + readU16 node (kvPos node idx)))).take
    (readU16 node (kvPos node idx + 2))

/-- `func (node BNode) nbytes() uint16`. -/
def nbytes (node : BNode) : Nat := kvPos node (nkeys node)

/-- `bytes.Compare` on byte slices: lexicographic three-way comparison. -/
def compareBytes : List Nat → List Nat → Ordering
  | [], [] => .eq
  | [], _ :: _ => .lt
  | _ :: _, [] => .gt
  | a :: as, b :: bs =>
    if a < b then .lt else if b < a then .gt else compareBytes as bs

/-- The loop of `nodeLookupLE`: `found` tracks the last index whose key
compared `<= 0` against the target; the loop breaks at the first index
whose key compares `>= 0`. -/
def lookupGo (node : BNode) (key : List Nat) (n i found : Nat) : Nat :=
  if i < n then
    match compareBytes (getKey node i) key with
    | .lt => lookupGo node key n (i + 1) i
    | .eq => i
    | .gt => found
  else found
termination_by n - i

/-- `func nodeLookupLE(node BNode, key []byte) uint16`. -/
def nodeLookupLE (node : BNode) (key : List Nat) : Nat :=
  lookupGo node key (nkeys node) 1 0

/-- Assertion-instrumented `getKey`: `none` when the source assertion
`idx < node.nkeys()` fails (the internal-fault path of `utils.Assert`). -/
def getKeyC (node : BNode) (idx : Nat) : Option (List Nat) :=
  if idx < nkeys node then some (getKey node idx) else none

/-- Assertion-instrumented loop of `nodeLookupLE`: `none` as soon as a
`getKey` assertion inside the loop would fail. -/
def lookupGoC (node : BNode) (key : List Nat) (n i found : Nat) : Option Nat :=
  if i < n then
    match getKeyC node i with
    | none => none
    | some k =>
      match compareBytes k key with
      | .lt => lookupGoC node key n (i + 1) i
      | .eq => some i
      | .gt => some found
  else some found
termination_by n - i

/-- Assertion-instrumented `nodeLookupLE`. -/
def nodeLookupLEC (node : BNode) (key : List Nat) : Option Nat :=
  lookupGoC node key (nkeys node) 1 0

/-- `func nodeAppendKV(new BNode, idx uint16, ptr uint64, key []byte, val []byte)`. -/
def nodeAppendKV (new : BNode) (idx ptr : Nat) (key val : List Nat) : BNode :=
  let n1 := setPtr new idx ptr
  let pos := kvPos n1 idx
  let n2 := writeU16 n1 pos key.length
  let n3 := writeU16 n2 (u16 (pos + 2)) val.length
  let n4 := writeBytes n3 (u16 (pos + 4)) key
  let n5 := writeBytes n4 (u16 (pos + 4 + u16 key.length)) val
  setOffset n5 (idx + 1) (getOffset n5 idx + 4 + u16 (key.length + val.length))

/-- Modelled from the spec: `nodeAppendRange` is declared without a body
in src/btree.go; §4.2 `append-range(dst, src, dstStart, srcStart, n)`
copies n whole records (pointer+key+value) from `src` starting at
`srcStart` into `dst` starting at `dstStart`, recomputing dst's offset
table incrementally — i.e. one `append-record` per copied record. -/
def nodeAppendRange (new old : BNode) (dstNew srcOld : Nat) : Nat → BNode
  | 0 => new
  | n + 1 =>
    nodeAppendRange
      (nodeAppendKV new dstNew (getPtr old srcOld) (getKey old srcOld) (getVal old srcOld))
      old (dstNew + 1) (srcOld + 1) n

/-- `func leafInsert(new BNode, old BNode, idx uint16, key []byte, val []byte)`. -/
def leafInsert (new old : BNode) (idx : Nat) (key val : List Nat) : BNode :=
  let n1 := setHeader new BNODE_LEAF (nkeys old + 1)
  let n2 := nodeAppendRange n1 old 0 0 idx
  let n3 := nodeAppendKV n2 idx 0 key val
  nodeAppendRange n3 old (idx + 1) idx (nkeys old - idx)

/-- The `for i, node := range kids` loop of `nodeReplaceKidN`:
`nodeAppendKV(new, idx+i, tree.new(node), node.getKey(0), nil)`. -/
def replaceKidsLoop (tree : BTree) (b : BNode) (idx : Nat) : List BNode → BNode
  | [] => b
  | kid :: rest =>
    replaceKidsLoop tree
      (nodeAppendKV b idx (tree.new kid) (getKey kid 0) []) (idx + 1) rest

/-- `func nodeReplaceKidN(tree *BTree, new BNode, old BNode, idx uint16, kids ...BNode)`. -/
def nodeReplaceKidN (tree : BTree) (new old : BNode) (idx : Nat)
    (kids : List BNode) : BNode :=
  let inc := kids.length
  let n1 := setHeader new BNODE_NODE (nkeys old + inc - 1)
  let n2 := nodeAppendRange n1 old 0 0 idx
  let n3 := replaceKidsLoop tree n2 idx kids
  nodeAppendRange n3 old (idx + inc) (idx + 1) (nkeys old - (idx + 1))

/-- `func nodeSplit2(left BNode, right BNode, old BNode)`: the body in
src/btree.go is empty, so no byte of either destination buffer is
written; the functional embedding returns the buffers unchanged. -/
def nodeSplit2 (left right _old : BNode) : BNode × BNode := (left, right)

/-- `func nodeSplit3(old BNode) (uint16, [3]BNode)`; the returned list
has exactly the returned count of nodes. -/
def nodeSplit3 (old : BNode) : Nat × List BNode :=
  if nbytes old ≤ BTREE_PAGE_SIZE then
    (1, [old.take BTREE_PAGE_SIZE])
  else
    let p1 := nodeSplit2 (zeros (2 * BTREE_PAGE_SIZE)) (zeros BTREE_PAGE_SIZE) old
    if nbytes p1.1 ≤ BTREE_PAGE_SIZE then
      (2, [p1.1.take BTREE_PAGE_SIZE, p1.2])
    else
      let p2 := nodeSplit2 (zeros BTREE_PAGE_SIZE) (zeros BTREE_PAGE_SIZE) p1.1
      (3, [p2.1, p2.2, p1.2])

/-- A logical record of a node: child pointer, key bytes, value bytes. -/
structure BEntry where
  ptr : Nat
  key : List Nat
  val : List Nat

/-- Default record (for `List.getD`). -/
def dRec : BEntry := ⟨0, [], []⟩

/-- Encoded size of one record: 4 header bytes plus key plus value. -/
def recSize (r : BEntry) : Nat := 4 + r.key.length + r.val.length

/-- Total encoded size of a record list. -/
def sizeAll : List BEntry → Nat
  | [] => 0
  | r :: rs => recSize r + sizeAll rs

/-- Byte encoding of one record: u16 key length, u16 value length, key
bytes, value bytes. -/
def encRec (r : BEntry) : List Nat :=
  u16le r.key.length ++ u16le r.val.length ++ r.key ++ r.val

/-- The record area: encodings of all records, in order. -/
def recArea : List BEntry → List Nat
  | [] => []
  | r :: rs => encRec r ++ recArea rs

/-- The filled part of the pointer table: one u64 per record. -/
def ptrFlat : List BEntry → List Nat
  | [] => []
  | r :: rs => u64le r.ptr ++ ptrFlat rs

/-- The filled part of the offset table: cumulative record sizes
starting from `base` (entries `offset[1] .. offset[len]`). -/
def offFlat (base : Nat) : List BEntry → List Nat
  | [] => []
  | r :: rs => u16le (base + recSize r) ++ offFlat (base + recSize r) rs

/-- A node buffer of total length `L` whose header announces type `t`
and `m` keys, with the first `rs.length` records written and all
remaining table slots and record bytes still zero — the state of a
fresh buffer after `setHeader` and `rs.length` `nodeAppendKV` calls. -/
def stageNode (t m : Nat) (rs : List BEntry) (L : Nat) : BNode :=
  u16le t ++ u16le m
    ++ ptrFlat rs ++ zeros (8 * (m - rs.length))
    ++ offFlat 0 rs ++ zeros (2 * (m - rs.length))
    ++ recArea rs ++ zeros (L - (4 + 10 * m + sizeAll rs))

/-- A fully built node of total buffer length `L` holding exactly the
records `rs`: the binary layout of §6 (header, pointer table, offset
table, record area). -/
def encodeNode (t : Nat) (rs : List BEntry) (L : Nat) : BNode :=
  stageNode t rs.length rs L

/-- Append the records `rs` at consecutive indices starting at `i`. -/
def appendAll (b : BNode) (i : Nat) : List BEntry → BNode
  | [] => b
  | r :: rs => appendAll (nodeAppendKV b i r.ptr r.key r.val) (i + 1) rs

/-- The records read from `node` at indices `src, …, src+n-1`. -/
def recsOf (node : BNode) (src : Nat) : Nat → List BEntry
  | 0 => []
  | n + 1 =>
    ⟨getPtr node src, getKey node src, getVal node src⟩ :: recsOf node (src + 1) n

/-- Named caller-input errors of §7. -/
inductive InsertError where
  | KeyTooLarge
  | ValueTooLarge
deriving DecidableEq

/-- Page-store operations, for recording which pages an operation
touched. -/
inductive PageOp where
  | deref (id : Nat)
  | alloc (bytes : List Nat)
  | free (id : Nat)

/-- The tree as seen through the page store: current root id and the
store contents. -/
structure TreeState where
  root : Nat
  pages : List (List Nat)

/-- Modelled from the spec: src/btree.go contains no tree-level
insert/update entry point and no error values; §7 requires a key or
value exceeding the configured maximum size to be rejected with
`KeyTooLarge` / `ValueTooLarge` before any page is touched, with no
partial mutation.  `doInsert` stands for the recursive tree update that
runs after validation and reports the page operations it performed. -/
def treeInsert (doInsert : TreeState → List Nat → List Nat → TreeState × List PageOp)
    (st : TreeState) (key val : List Nat) :
    Except InsertError TreeState × List PageOp :=
  if BTREE_MAX_KEY_SIZE < key.length then (.error .KeyTooLarge, [])
  else if BTREE_MAX_VAL_SIZE < val.length then (.error .ValueTooLarge, [])
  else
    let r := doInsert st key val
    (.ok r.1, r.2)

/-- C8: with page size 4096, max key 1000 and max value 3000, the
startup splittability inequality of `func init()` holds:
`node1max = 4018 ≤ 4096`, so the assertion never fails. -/
theorem init_assert_holds : node1max = 4018 ∧ node1max ≤ BTREE_PAGE_SIZE := by
  constructor <;> decide

set_option maxRecDepth 8000

/-! ### Basic length and structure lemmas -/

@[simp] theorem u16le_length (v : Nat) : (u16le v).length = 2 := rfl

@[simp] theorem u64le_length (v : Nat) : (u64le v).length = 8 := rfl

@[simp] theorem zeros_length (n : Nat) : (zeros n).length = n := by
  simp [zeros]

theorem zeros_succ (n : Nat) : zeros (n + 1) = 0 :: zeros n := by
  simp [zeros, List.replicate_succ]

@[simp] theorem encRec_length (r : BEntry) : (encRec r).length = recSize r := by
  simp [encRec, recSize]
  omega

@[simp] theorem ptrFlat_length (rs : List BEntry) :
    (ptrFlat rs).length = 8 * rs.length := by
  induction rs with
  | nil => rfl
  | cons r rs ih =>
    simp [ptrFlat, ih]
    omega

@[simp] theorem offFlat_length (base : Nat) (rs : List BEntry) :
    (offFlat base rs).length = 2 * rs.length := by
  induction rs generalizing base with
  | nil => rfl
  | cons r rs ih =>
    simp [offFlat, ih]
    omega

@[simp] theorem recArea_length (rs : List BEntry) :
    (recArea rs).length = sizeAll rs := by
  induction rs with
  | nil => rfl
  | cons r rs ih => simp [recArea, sizeAll, ih]

theorem sizeAll_append (rs rs' : List BEntry) :
    sizeAll (rs ++ rs') = sizeAll rs + sizeAll rs' := by
  induction rs with
  | nil => simp [sizeAll]
  | cons r rs ih => simp [sizeAll, ih]; omega

theorem ptrFlat_append (rs rs' : List BEntry) :
    ptrFlat (rs ++ rs') = ptrFlat rs ++ ptrFlat rs' := by
  induction rs with
  | nil => rfl
  | cons r rs ih => simp [ptrFlat, ih]

theorem recArea_append (rs rs' : List BEntry) :
    recArea (rs ++ rs') = recArea rs ++ recArea rs' := by
  induction rs with
  | nil => rfl
  | cons r rs ih => simp [recArea, ih]

theorem offFlat_snoc (base : Nat) (rs : List BEntry) (r : BEntry) :
    offFlat base (rs ++ [r]) =
      offFlat base rs ++ u16le (base + sizeAll rs + recSize r) := by
  induction rs generalizing base with
  | nil => simp [offFlat, sizeAll]
  | cons q rs ih =>
    simp only [List.cons_append, offFlat, sizeAll, List.append_eq]
    rw [ih]
    have harg : base + recSize q + sizeAll rs + recSize r
        = base + (recSize q + sizeAll rs) + recSize r := by omega
    rw [harg, List.append_assoc]

/-! ### Write lemmas -/

theorem writeBytes_src_append (b : BNode) (p : Nat) (s1 s2 : List Nat) :
    writeBytes b p (s1 ++ s2) = writeBytes (writeBytes b p s1) (p + s1.length) s2 := by
  induction s1 generalizing b p with
  | nil => simp [writeBytes]
  | cons x xs ih =>
    show writeBytes (b.set p x) (p + 1) (xs ++ s2)
        = writeBytes (writeBytes (b.set p x) (p + 1) xs) (p + (xs.length + 1)) s2
    rw [ih]
    have he : p + 1 + xs.length = p + (xs.length + 1) := by omega
    rw [he]

/-- Writing `s` exactly at the boundary between a fixed area `A` and a
zero area of size `Z` fills the front of the zero area. -/
theorem seg_fill (A B s : List Nat) (Z p : Nat) (hp : p = A.length)
    (hs : s.length ≤ Z) :
    writeBytes (A ++ (zeros Z ++ B)) p s = A ++ (s ++ (zeros (Z - s.length) ++ B)) := by
  induction s generalizing A Z p with
  | nil => simp [writeBytes]
  | cons x xs ih =>
    simp only [writeBytes]
    obtain ⟨Z', rfl⟩ : ∃ Z', Z = Z' + 1 := ⟨Z - 1, by simp at hs; omega⟩
    have hset : (A ++ (zeros (Z' + 1) ++ B)).set p x = (A ++ [x]) ++ (zeros Z' ++ B) := by
      rw [List.set_append_right _ _ (by omega : A.length ≤ p)]
      rw [zeros_succ]
      simp [hp]
    rw [hset, ih (A ++ [x]) Z' (p + 1) (by simp [hp]) (by simp at hs; omega)]
    simp [List.append_assoc]

/-! ### Read lemmas -/

theorem readByte_skip (A B : List Nat) (p : Nat) (hp : A.length ≤ p) :
    readByte (A ++ B) p = readByte B (p - A.length) := by
  unfold readByte
  exact List.getD_append_right A B 0 p hp

theorem readByte_here (A B : List Nat) (p : Nat) (hp : p < A.length) :
    readByte (A ++ B) p = readByte A p := by
  unfold readByte
  exact List.getD_append A B 0 p hp

theorem readU16_skip (A B : List Nat) (p : Nat) (hp : A.length ≤ p) :
    readU16 (A ++ B) p = readU16 B (p - A.length) := by
  unfold readU16
  rw [readByte_skip A B p hp, readByte_skip A B (p + 1) (by omega)]
  have h1 : p + 1 - A.length = p - A.length + 1 := by omega
  rw [h1]

theorem u16_mod_split (v : Nat) : v % 256 + 256 * (v / 256 % 256) = v % 65536 := by
  omega

theorem readU16_here (A B : List Nat) (p v : Nat) (hp : p = A.length) :
    readU16 (A ++ (u16le v ++ B)) p = v % 65536 := by
  rw [readU16_skip _ _ _ (by omega), hp, Nat.sub_self]
  unfold readU16 readByte u16le
  simp [List.getD]
  omega

theorem readU64_skip (A B : List Nat) (p : Nat) (hp : A.length ≤ p) :
    readU64 (A ++ B) p = readU64 B (p - A.length) := by
  unfold readU64
  rw [readByte_skip A B p hp, readByte_skip A B (p + 1) (by omega),
    readByte_skip A B (p + 2) (by omega), readByte_skip A B (p + 3) (by omega),
    readByte_skip A B (p + 4) (by omega), readByte_skip A B (p + 5) (by omega),
    readByte_skip A B (p + 6) (by omega), readByte_skip A B (p + 7) (by omega)]
  have e1 : p + 1 - A.length = p - A.length + 1 := by omega
  have e2 : p + 2 - A.length = p - A.length + 2 := by omega
  have e3 : p + 3 - A.length = p - A.length + 3 := by omega
  have e4 : p + 4 - A.length = p - A.length + 4 := by omega
  have e5 : p + 5 - A.length = p - A.length + 5 := by omega
  have e6 : p + 6 - A.length = p - A.length + 6 := by omega
  have e7 : p + 7 - A.length = p - A.length + 7 := by omega
  rw [e1, e2, e3, e4, e5, e6, e7]

theorem readU64_here (A B : List Nat) (p v : Nat) (hp : p = A.length) :
    readU64 (A ++ (u64le v ++ B)) p = v % 2 ^ 64 := by
  rw [readU64_skip _ _ _ (by omega), hp, Nat.sub_self]
  unfold readU64 readByte u64le
  simp [List.getD]
  omega

theorem readByte_zeros (n p : Nat) : readByte (zeros n) p = 0 := by
  unfold readByte zeros
  rcases Nat.lt_or_ge p n with h | h
  · simp [List.getD_eq_getElem?_getD, List.getElem?_replicate, h]
  · have he : (List.replicate n (0 : Nat))[p]? = none := by
      rw [List.getElem?_eq_none]
      simpa using h
    simp [List.getD_eq_getElem?_getD, he]

/-! ### Reads against the segment structure of a node buffer -/

theorem readU16_at0 (B : List Nat) (v : Nat) : readU16 (u16le v ++ B) 0 = v % 65536 := by
  unfold readU16 readByte u16le
  simp [List.getD]
  omega

theorem nkeys_seg (t m : Nat) (R : List Nat) :
    nkeys (u16le t ++ u16le m ++ R) = m % 65536 := by
  unfold nkeys
  exact readU16_here (u16le t) R 2 m rfl

theorem sizeAll_take_le (rs : List BEntry) (n : Nat) :
    sizeAll (rs.take n) ≤ sizeAll rs := by
  conv_rhs => rw [← List.take_append_drop n rs]
  rw [sizeAll_append]
  omega

theorem sizeAll_take_succ (rs : List BEntry) (j : Nat) (hj : j < rs.length) :
    sizeAll (rs.take (j + 1)) = sizeAll (rs.take j) + recSize (rs.getD j dRec) := by
  induction rs generalizing j with
  | nil => simp at hj
  | cons r rs ih =>
    cases j with
    | zero => simp [sizeAll, List.getD]
    | succ j' =>
      simp only [List.take_succ_cons, sizeAll, List.getD_cons_succ]
      rw [ih j' (by simp at hj; omega)]
      omega

theorem readU16_offFlat (rs : List BEntry) (B : List Nat) (base j : Nat)
    (hj : j < rs.length) :
    readU16 (offFlat base rs ++ B) (2 * j)
      = (base + sizeAll (rs.take (j + 1))) % 65536 := by
  induction rs generalizing base j with
  | nil => simp at hj
  | cons r rs ih =>
    cases j with
    | zero =>
      show readU16 ((u16le (base + recSize r) ++ offFlat (base + recSize r) rs) ++ B) 0
        = (base + sizeAll ((r :: rs).take 1)) % 65536
      rw [List.append_assoc, readU16_at0]
      have h1 : sizeAll ((r :: rs).take 1) = recSize r := by
        simp [sizeAll]
      rw [h1]
    | succ j' =>
      show readU16 ((u16le (base + recSize r) ++ offFlat (base + recSize r) rs) ++ B)
          (2 * (j' + 1)) = _
      rw [List.append_assoc,
        readU16_skip (u16le (base + recSize r)) _ _ (by simp only [u16le_length]; omega)]
      have h2 : 2 * (j' + 1) - (u16le (base + recSize r)).length = 2 * j' := by
        simp
        omega
      rw [h2, ih (base + recSize r) j' (by simp at hj; omega)]
      have h3 : base + recSize r + sizeAll (rs.take (j' + 1))
          = base + sizeAll ((r :: rs).take (j' + 1 + 1)) := by
      -- take (j'+2) (r :: rs) = r :: take (j'+1) rs
        simp only [List.take_succ_cons, sizeAll]
        omega
      rw [h3]

theorem getOffset_seg (t m : Nat) (P : List Nat) (rs : List BEntry) (R : List Nat)
    (k : Nat) (hP : P.length = 8 * m) (hk : k ≤ rs.length) (hlen : rs.length ≤ m)
    (hb : 4 + 10 * m + sizeAll rs ≤ 65535) :
    getOffset (u16le t ++ (u16le m ++ (P ++ (offFlat 0 rs ++ R)))) k
      = sizeAll (rs.take k) := by
  cases k with
  | zero => simp [getOffset, sizeAll]
  | succ k' =>
    have hm : m < 65536 := by omega
    unfold getOffset offsetPos
    simp only [Nat.succ_ne_zero, if_false]
    have hnk : nkeys (u16le t ++ (u16le m ++ (P ++ (offFlat 0 rs ++ R)))) = m := by
      rw [show u16le t ++ (u16le m ++ (P ++ (offFlat 0 rs ++ R)))
          = u16le t ++ u16le m ++ (P ++ (offFlat 0 rs ++ R)) by simp [List.append_assoc],
        nkeys_seg, Nat.mod_eq_of_lt hm]
    rw [hnk]
    have hpos : u16 (HEADER + 8 * m + 2 * (k' + 1 - 1)) = 4 + 8 * m + 2 * k' := by
      unfold u16 HEADER
      have he : k' + 1 - 1 = k' := by omega
      rw [he]
      apply Nat.mod_eq_of_lt
      omega
    rw [hpos]
    have hC : u16le t ++ (u16le m ++ (P ++ (offFlat 0 rs ++ R)))
        = (u16le t ++ (u16le m ++ P)) ++ (offFlat 0 rs ++ R) := by
      simp [List.append_assoc]
    rw [hC, readU16_skip _ _ _ (by simp [hP]; omega)]
    have hsub : 4 + 8 * m + 2 * k' - (u16le t ++ (u16le m ++ P)).length = 2 * k' := by
      simp [hP]
      omega
    rw [hsub, readU16_offFlat rs R 0 k' (by omega)]
    have hlt : 0 + sizeAll (rs.take (k' + 1)) < 65536 := by
      have := sizeAll_take_le rs (k' + 1)
      omega
    rw [Nat.mod_eq_of_lt hlt]
    omega

theorem kvPos_seg (t m : Nat) (P : List Nat) (rs : List BEntry) (R : List Nat)
    (k : Nat) (hP : P.length = 8 * m) (hk : k ≤ rs.length) (hlen : rs.length ≤ m)
    (hb : 4 + 10 * m + sizeAll rs ≤ 65535) :
    kvPos (u16le t ++ (u16le m ++ (P ++ (offFlat 0 rs ++ R)))) k
      = 4 + 10 * m + sizeAll (rs.take k) := by
  have hm : m < 65536 := by omega
  unfold kvPos
  have hnk : nkeys (u16le t ++ (u16le m ++ (P ++ (offFlat 0 rs ++ R)))) = m := by
    rw [show u16le t ++ (u16le m ++ (P ++ (offFlat 0 rs ++ R)))
        = u16le t ++ u16le m ++ (P ++ (offFlat 0 rs ++ R)) by simp [List.append_assoc],
      nkeys_seg, Nat.mod_eq_of_lt hm]
  rw [hnk, getOffset_seg t m P rs R k hP hk hlen hb]
  unfold u16 HEADER
  have hlt : 4 + 8 * m + 2 * m + sizeAll (rs.take k) < 65536 := by
    have := sizeAll_take_le rs k
    omega
  rw [Nat.mod_eq_of_lt hlt]
  omega

/-! ### One `nodeAppendKV` on a staged buffer writes one record -/

theorem writeRec (b : BNode) (p : Nat) (r : BEntry) :
    writeBytes
      (writeBytes
        (writeBytes (writeBytes b p (u16le r.key.length)) (p + 2) (u16le r.val.length))
        (p + 4) r.key)
      (p + 4 + r.key.length) r.val
      = writeBytes b p (encRec r) := by
  have hsplit : encRec r
      = u16le r.key.length ++ (u16le r.val.length ++ (r.key ++ r.val)) := by
    simp [encRec, List.append_assoc]
  rw [hsplit, writeBytes_src_append]
  have h1 : p + (u16le r.key.length).length = p + 2 := by simp
  rw [h1, writeBytes_src_append]
  have h2 : p + 2 + (u16le r.val.length).length = p + 4 := by simp
  rw [h2, writeBytes_src_append]

theorem appendKV_stage (t m : Nat) (rs : List BEntry) (r : BEntry) (L : Nat)
    (hk : rs.length < m)
    (hb : 4 + 10 * m + sizeAll rs + recSize r ≤ 65535)
    (hL : 4 + 10 * m + sizeAll rs + recSize r ≤ L) :
    nodeAppendKV (stageNode t m rs L) rs.length r.ptr r.key r.val
      = stageNode t m (rs ++ [r]) L := by
  have hrec : recSize r = 4 + r.key.length + r.val.length := rfl
  have hm : m < 65536 := by omega
  have hS : sizeAll rs + recSize r ≤ 65535 := by omega
  -- Step A: the pointer write fills slot `rs.length` of the pointer table.
  have h1 : stageNode t m rs L
      = (u16le t ++ u16le m ++ ptrFlat rs)
        ++ (zeros (8 * (m - rs.length))
          ++ (offFlat 0 rs
            ++ (zeros (2 * (m - rs.length))
              ++ (recArea rs ++ zeros (L - (4 + 10 * m + sizeAll rs)))))) := by
    simp [stageNode, List.append_assoc]
  have hlen1 : (4:Nat) + 8 * rs.length = (u16le t ++ u16le m ++ ptrFlat rs).length := by
    simp only [List.length_append, u16le_length, ptrFlat_length]
    try omega
  have hpos1 : u16 (HEADER + 8 * rs.length) = 4 + 8 * rs.length := by
    unfold u16 HEADER
    apply Nat.mod_eq_of_lt
    omega
  have stepA : setPtr (stageNode t m rs L) rs.length r.ptr
      = (u16le t ++ u16le m ++ ptrFlat rs)
        ++ (u64le r.ptr
          ++ (zeros (8 * (m - rs.length) - 8)
            ++ (offFlat 0 rs
              ++ (zeros (2 * (m - rs.length))
                ++ (recArea rs ++ zeros (L - (4 + 10 * m + sizeAll rs))))))) := by
    unfold setPtr writeU64
    rw [h1, hpos1,
      seg_fill _ _ _ _ _ hlen1 (by simp only [u64le_length]; omega)]
    simp only [u64le_length]
  -- The post-pointer-write buffer, regrouped to the segment shape.
  have hn1 : (u16le t ++ u16le m ++ ptrFlat rs)
        ++ (u64le r.ptr
          ++ (zeros (8 * (m - rs.length) - 8)
            ++ (offFlat 0 rs
              ++ (zeros (2 * (m - rs.length))
                ++ (recArea rs ++ zeros (L - (4 + 10 * m + sizeAll rs)))))))
      = u16le t ++ (u16le m
          ++ ((ptrFlat rs ++ u64le r.ptr ++ zeros (8 * (m - rs.length) - 8))
            ++ (offFlat 0 rs
              ++ (zeros (2 * (m - rs.length))
                ++ (recArea rs ++ zeros (L - (4 + 10 * m + sizeAll rs))))))) := by
    simp [List.append_assoc]
  have hP1 : (ptrFlat rs ++ u64le r.ptr ++ zeros (8 * (m - rs.length) - 8)).length
      = 8 * m := by
    simp only [List.length_append, ptrFlat_length, u64le_length, zeros_length]
    omega
  -- Step B: the record position of slot `rs.length`.
  have hposB : kvPos ((u16le t ++ u16le m ++ ptrFlat rs)
        ++ (u64le r.ptr
          ++ (zeros (8 * (m - rs.length) - 8)
            ++ (offFlat 0 rs
              ++ (zeros (2 * (m - rs.length))
                ++ (recArea rs ++ zeros (L - (4 + 10 * m + sizeAll rs)))))))) rs.length
      = 4 + 10 * m + sizeAll rs := by
    rw [hn1, kvPos_seg t m _ rs _ rs.length hP1 (le_refl _) (by omega) (by omega),
      List.take_length]
  -- Step C: the record bytes land at the start of the free record area.
  have h2group : (u16le t ++ u16le m ++ ptrFlat rs)
        ++ (u64le r.ptr
          ++ (zeros (8 * (m - rs.length) - 8)
            ++ (offFlat 0 rs
              ++ (zeros (2 * (m - rs.length))
                ++ (recArea rs ++ zeros (L - (4 + 10 * m + sizeAll rs)))))))
      = (u16le t ++ u16le m ++ ptrFlat rs ++ u64le r.ptr
          ++ zeros (8 * (m - rs.length) - 8) ++ offFlat 0 rs
          ++ zeros (2 * (m - rs.length)) ++ recArea rs)
        ++ (zeros (L - (4 + 10 * m + sizeAll rs)) ++ []) := by
    simp [List.append_assoc]
  have hlen2 : (4:Nat) + 10 * m + sizeAll rs
      = (u16le t ++ u16le m ++ ptrFlat rs ++ u64le r.ptr
          ++ zeros (8 * (m - rs.length) - 8) ++ offFlat 0 rs
          ++ zeros (2 * (m - rs.length)) ++ recArea rs).length := by
    simp only [List.length_append, u16le_length, ptrFlat_length, u64le_length,
      zeros_length, offFlat_length, recArea_length]
    omega
  have stepC : writeBytes
        ((u16le t ++ u16le m ++ ptrFlat rs)
          ++ (u64le r.ptr
            ++ (zeros (8 * (m - rs.length) - 8)
              ++ (offFlat 0 rs
                ++ (zeros (2 * (m - rs.length))
                  ++ (recArea rs ++ zeros (L - (4 + 10 * m + sizeAll rs))))))))
        (4 + 10 * m + sizeAll rs) (encRec r)
      = (u16le t ++ u16le m ++ ptrFlat rs ++ u64le r.ptr
          ++ zeros (8 * (m - rs.length) - 8) ++ offFlat 0 rs
          ++ zeros (2 * (m - rs.length)) ++ recArea rs)
        ++ (encRec r
          ++ (zeros (L - (4 + 10 * m + sizeAll rs) - recSize r) ++ [])) := by
    rw [h2group, seg_fill _ _ _ _ _ hlen2 (by simp only [encRec_length]; omega)]
    simp only [encRec_length]
  -- Step D: header and offset table of the written buffer are untouched.
  have hmid2seg : (u16le t ++ u16le m ++ ptrFlat rs ++ u64le r.ptr
          ++ zeros (8 * (m - rs.length) - 8) ++ offFlat 0 rs
          ++ zeros (2 * (m - rs.length)) ++ recArea rs)
        ++ (encRec r
          ++ (zeros (L - (4 + 10 * m + sizeAll rs) - recSize r) ++ []))
      = u16le t ++ (u16le m
          ++ ((ptrFlat rs ++ u64le r.ptr ++ zeros (8 * (m - rs.length) - 8))
            ++ (offFlat 0 rs
              ++ (zeros (2 * (m - rs.length))
                ++ (recArea rs
                  ++ (encRec r
                    ++ (zeros (L - (4 + 10 * m + sizeAll rs) - recSize r) ++ []))))))) := by
    simp [List.append_assoc]
  have hoffD : getOffset ((u16le t ++ u16le m ++ ptrFlat rs ++ u64le r.ptr
          ++ zeros (8 * (m - rs.length) - 8) ++ offFlat 0 rs
          ++ zeros (2 * (m - rs.length)) ++ recArea rs)
        ++ (encRec r
          ++ (zeros (L - (4 + 10 * m + sizeAll rs) - recSize r) ++ []))) rs.length = sizeAll rs := by
    rw [hmid2seg,
      getOffset_seg t m _ rs _ rs.length hP1 (le_refl _) (by omega) (by omega),
      List.take_length]
  have hnkD : nkeys ((u16le t ++ u16le m ++ ptrFlat rs ++ u64le r.ptr
          ++ zeros (8 * (m - rs.length) - 8) ++ offFlat 0 rs
          ++ zeros (2 * (m - rs.length)) ++ recArea rs)
        ++ (encRec r
          ++ (zeros (L - (4 + 10 * m + sizeAll rs) - recSize r) ++ []))) = m := by
    rw [hmid2seg,
      show u16le t ++ (u16le m
          ++ ((ptrFlat rs ++ u64le r.ptr ++ zeros (8 * (m - rs.length) - 8))
            ++ (offFlat 0 rs
              ++ (zeros (2 * (m - rs.length))
                ++ (recArea rs
                  ++ (encRec r
                    ++ (zeros (L - (4 + 10 * m + sizeAll rs) - recSize r) ++ [])))))))
        = u16le t ++ u16le m
          ++ ((ptrFlat rs ++ u64le r.ptr ++ zeros (8 * (m - rs.length) - 8))
            ++ (offFlat 0 rs
              ++ (zeros (2 * (m - rs.length))
                ++ (recArea rs
                  ++ (encRec r
                    ++ (zeros (L - (4 + 10 * m + sizeAll rs) - recSize r) ++ []))))))
        by simp [List.append_assoc],
      nkeys_seg, Nat.mod_eq_of_lt hm]
  -- Step E: the offset-table write for slot rs.length + 1.
  have hopE : offsetPos ((u16le t ++ u16le m ++ ptrFlat rs ++ u64le r.ptr
          ++ zeros (8 * (m - rs.length) - 8) ++ offFlat 0 rs
          ++ zeros (2 * (m - rs.length)) ++ recArea rs)
        ++ (encRec r
          ++ (zeros (L - (4 + 10 * m + sizeAll rs) - recSize r) ++ []))) (rs.length + 1)
      = 4 + 8 * m + 2 * rs.length := by
    unfold offsetPos
    rw [hnkD]
    unfold u16 HEADER
    have he : rs.length + 1 - 1 = rs.length := by omega
    rw [he]
    apply Nat.mod_eq_of_lt
    omega
  have h3group : (u16le t ++ u16le m ++ ptrFlat rs ++ u64le r.ptr
          ++ zeros (8 * (m - rs.length) - 8) ++ offFlat 0 rs
          ++ zeros (2 * (m - rs.length)) ++ recArea rs)
        ++ (encRec r
          ++ (zeros (L - (4 + 10 * m + sizeAll rs) - recSize r) ++ []))
      = (u16le t ++ u16le m ++ ptrFlat rs ++ u64le r.ptr
          ++ zeros (8 * (m - rs.length) - 8) ++ offFlat 0 rs)
        ++ (zeros (2 * (m - rs.length))
          ++ (recArea rs
            ++ (encRec r
              ++ (zeros (L - (4 + 10 * m + sizeAll rs) - recSize r) ++ [])))) := by
    simp [List.append_assoc]
  have hlen3 : (4:Nat) + 8 * m + 2 * rs.length
      = (u16le t ++ u16le m ++ ptrFlat rs ++ u64le r.ptr
          ++ zeros (8 * (m - rs.length) - 8) ++ offFlat 0 rs).length := by
    simp only [List.length_append, u16le_length, ptrFlat_length, u64le_length,
      zeros_length, offFlat_length]
    omega
  -- collapse of the uint16 reductions appearing in `nodeAppendKV`
  have hu2 : u16 (4 + 10 * m + sizeAll rs + 2) = 4 + 10 * m + sizeAll rs + 2 := by
    unfold u16
    apply Nat.mod_eq_of_lt
    omega
  have hu4 : u16 (4 + 10 * m + sizeAll rs + 4) = 4 + 10 * m + sizeAll rs + 4 := by
    unfold u16
    apply Nat.mod_eq_of_lt
    omega
  have huk : u16 r.key.length = r.key.length := by
    unfold u16
    apply Nat.mod_eq_of_lt
    omega
  have hukl : u16 (4 + 10 * m + sizeAll rs + 4 + r.key.length)
      = 4 + 10 * m + sizeAll rs + 4 + r.key.length := by
    unfold u16
    apply Nat.mod_eq_of_lt
    omega
  have huv : u16 (r.key.length + r.val.length) = r.key.length + r.val.length := by
    unfold u16
    apply Nat.mod_eq_of_lt
    omega
  -- assemble
  simp only [nodeAppendKV, writeU16]
  rw [stepA, hposB, hu2, hu4, huk, hukl, huv, writeRec, stepC, hoffD]
  simp only [setOffset, writeU16]
  rw [hopE, h3group,
    seg_fill _ _ _ _ _ hlen3 (by simp only [u16le_length]; omega)]
  simp only [u16le_length]
  -- the result is exactly the staged buffer extended with record r
  have hpf1 : ptrFlat (rs ++ [r]) = ptrFlat rs ++ u64le r.ptr := by
    rw [ptrFlat_append]
    simp [ptrFlat]
  have hra1 : recArea (rs ++ [r]) = recArea rs ++ encRec r := by
    rw [recArea_append]
    simp [recArea]
  have hsa1 : sizeAll (rs ++ [r]) = sizeAll rs + recSize r := by
    rw [sizeAll_append]
    simp [sizeAll]
  have hof1 : offFlat 0 (rs ++ [r]) = offFlat 0 rs ++ u16le (sizeAll rs + recSize r) := by
    rw [offFlat_snoc, Nat.zero_add]
  have hlen4 : (rs ++ [r]).length = rs.length + 1 := by simp
  have hz8 : 8 * (m - (rs.length + 1)) = 8 * (m - rs.length) - 8 := by omega
  have hz2 : 2 * (m - (rs.length + 1)) = 2 * (m - rs.length) - 2 := by omega
  have hzT : L - (4 + 10 * m + (sizeAll rs + recSize r))
      = L - (4 + 10 * m + sizeAll rs) - recSize r := by omega
  have hV : sizeAll rs + 4 + (r.key.length + r.val.length) = sizeAll rs + recSize r := by
    rw [hrec]
    omega
  rw [hV]
  simp only [stageNode, hlen4, hpf1, hra1, hsa1, hof1, hz8, hz2, hzT]
  simp [List.append_assoc]

/-! ### Building a node = staging records one after another -/

theorem zeros_add (a b : Nat) : zeros (a + b) = zeros a ++ zeros b := by
  induction a with
  | zero => simp [zeros]
  | succ a ih =>
    have h : a + 1 + b = (a + b) + 1 := by omega
    rw [h, zeros_succ, zeros_succ, ih]
    rfl

theorem setHeader_zeros (t m L : Nat) (hL : 4 + 10 * m ≤ L) :
    setHeader (zeros L) t m = stageNode t m [] L := by
  unfold setHeader writeU16
  have h0 : zeros L = [] ++ (zeros L ++ []) := by simp
  rw [h0, seg_fill [] [] (u16le t) L 0 (by simp) (by simp; omega)]
  have h2 : [] ++ (u16le t ++ (zeros (L - (u16le t).length) ++ []))
      = u16le t ++ (zeros (L - 2) ++ []) := by simp
  rw [h2, seg_fill (u16le t) [] (u16le m) (L - 2) 2 (by simp) (by simp; omega)]
  have hsplit : L - 2 - (u16le m).length = 8 * m + (2 * m + (L - (4 + 10 * m))) := by
    simp only [u16le_length]
    omega
  rw [hsplit, zeros_add, zeros_add]
  simp [stageNode, ptrFlat, offFlat, recArea, sizeAll, List.append_assoc]

theorem appendAll_stage (t m L : Nat) (rs more : List BEntry)
    (hcount : rs.length + more.length ≤ m)
    (hb : 4 + 10 * m + sizeAll rs + sizeAll more ≤ 65535)
    (hL : 4 + 10 * m + sizeAll rs + sizeAll more ≤ L) :
    appendAll (stageNode t m rs L) rs.length more = stageNode t m (rs ++ more) L := by
  induction more generalizing rs with
  | nil => simp [appendAll]
  | cons r more ih =>
    show appendAll (nodeAppendKV (stageNode t m rs L) rs.length r.ptr r.key r.val)
        (rs.length + 1) (more) = _
    have hsz : sizeAll (r :: more) = recSize r + sizeAll more := rfl
    rw [appendKV_stage t m rs r L (by simp at hcount; omega)
      (by rw [hsz] at hb; omega) (by rw [hsz] at hL; omega)]
    have hlen : rs.length + 1 = (rs ++ [r]).length := by simp
    rw [hlen, ih (rs ++ [r])
      (by simp at hcount ⊢; omega)
      (by rw [hsz] at hb; rw [sizeAll_append]; simp [sizeAll]; omega)
      (by rw [hsz] at hL; rw [sizeAll_append]; simp [sizeAll]; omega)]
    have : (rs ++ [r]) ++ more = rs ++ r :: more := by simp
    rw [this]

theorem nodeAppendRange_eq (new old : BNode) (dst src n : Nat) :
    nodeAppendRange new old dst src n = appendAll new dst (recsOf old src n) := by
  induction n generalizing new dst src with
  | zero => rfl
  | succ n ih =>
    show nodeAppendRange
        (nodeAppendKV new dst (getPtr old src) (getKey old src) (getVal old src))
        old (dst + 1) (src + 1) n = _
    rw [ih]
    rfl

theorem replaceKidsLoop_eq (tree : BTree) (b : BNode) (idx : Nat) (kids : List BNode) :
    replaceKidsLoop tree b idx kids
      = appendAll b idx (kids.map fun kid => ⟨tree.new kid, getKey kid 0, []⟩) := by
  induction kids generalizing b idx with
  | nil => rfl
  | cons kid kids ih =>
    show replaceKidsLoop tree
        (nodeAppendKV b idx (tree.new kid) (getKey kid 0) []) (idx + 1) kids = _
    rw [ih]
    rfl

/-! ### Decoding a staged node -/

theorem rs_split (rs : List BEntry) (j : Nat) (hj : j < rs.length) :
    rs = rs.take j ++ rs.getD j dRec :: rs.drop (j + 1) := by
  conv_lhs => rw [← List.take_append_drop j rs]
  rw [List.drop_eq_getElem_cons hj, List.getD_eq_getElem _ _ hj]

theorem sizeAll_rec_le (rs : List BEntry) (j : Nat) (hj : j < rs.length) :
    sizeAll (rs.take j) + recSize (rs.getD j dRec) ≤ sizeAll rs := by
  rw [← sizeAll_take_succ rs j hj]
  exact sizeAll_take_le rs (j + 1)

theorem nkeys_stage (t m : Nat) (rs : List BEntry) (L : Nat) :
    nkeys (stageNode t m rs L) = m % 65536 := by
  rw [show stageNode t m rs L
      = u16le t ++ u16le m
        ++ (ptrFlat rs ++ (zeros (8 * (m - rs.length))
          ++ (offFlat 0 rs ++ (zeros (2 * (m - rs.length))
            ++ (recArea rs ++ zeros (L - (4 + 10 * m + sizeAll rs)))))))
      by simp [stageNode, List.append_assoc]]
  exact nkeys_seg t m _

theorem btype_stage (t m : Nat) (rs : List BEntry) (L : Nat) :
    btype (stageNode t m rs L) = t % 65536 := by
  unfold btype
  rw [show stageNode t m rs L
      = [] ++ (u16le t
        ++ (u16le m ++ (ptrFlat rs ++ (zeros (8 * (m - rs.length))
          ++ (offFlat 0 rs ++ (zeros (2 * (m - rs.length))
            ++ (recArea rs ++ zeros (L - (4 + 10 * m + sizeAll rs)))))))))
      by simp [stageNode, List.append_assoc]]
  exact readU16_here [] _ 0 t rfl

theorem kvPos_stage (t m : Nat) (rs : List BEntry) (L j : Nat)
    (hj : j ≤ rs.length) (hlen : rs.length ≤ m)
    (hb : 4 + 10 * m + sizeAll rs ≤ 65535) :
    kvPos (stageNode t m rs L) j = 4 + 10 * m + sizeAll (rs.take j) := by
  rw [show stageNode t m rs L
      = u16le t ++ (u16le m
        ++ ((ptrFlat rs ++ zeros (8 * (m - rs.length)))
          ++ (offFlat 0 rs ++ (zeros (2 * (m - rs.length))
            ++ (recArea rs ++ zeros (L - (4 + 10 * m + sizeAll rs)))))))
      by simp [stageNode, List.append_assoc]]
  exact kvPos_seg t m _ rs _ j
    (by simp only [List.length_append, ptrFlat_length, zeros_length]; omega)
    hj hlen hb

theorem getOffset_stage (t m : Nat) (rs : List BEntry) (L j : Nat)
    (hj : j ≤ rs.length) (hlen : rs.length ≤ m)
    (hb : 4 + 10 * m + sizeAll rs ≤ 65535) :
    getOffset (stageNode t m rs L) j = sizeAll (rs.take j) := by
  rw [show stageNode t m rs L
      = u16le t ++ (u16le m
        ++ ((ptrFlat rs ++ zeros (8 * (m - rs.length)))
          ++ (offFlat 0 rs ++ (zeros (2 * (m - rs.length))
            ++ (recArea rs ++ zeros (L - (4 + 10 * m + sizeAll rs)))))))
      by simp [stageNode, List.append_assoc]]
  exact getOffset_seg t m _ rs _ j
    (by simp only [List.length_append, ptrFlat_length, zeros_length]; omega)
    hj hlen hb

theorem getKey_stage (t m : Nat) (rs : List BEntry) (L j : Nat)
    (hj : j < rs.length) (hlen : rs.length ≤ m)
    (hb : 4 + 10 * m + sizeAll rs ≤ 65535) :
    getKey (stageNode t m rs L) j = (rs.getD j dRec).key := by
  have hrle := sizeAll_rec_le rs j hj
  have hcum := sizeAll_take_le rs j
  have hrec : recSize (rs.getD j dRec)
      = 4 + (rs.getD j dRec).key.length + (rs.getD j dRec).val.length := rfl
  have hkv := kvPos_stage t m rs L j (le_of_lt hj) hlen hb
  have hsplitr : recArea rs
      = recArea (rs.take j)
        ++ (encRec (rs.getD j dRec) ++ recArea (rs.drop (j + 1))) := by
    conv_lhs => rw [rs_split rs j hj]
    rw [recArea_append]
    rfl
  have hkeysplit : stageNode t m rs L
      = (u16le t ++ u16le m ++ ptrFlat rs ++ zeros (8 * (m - rs.length))
          ++ offFlat 0 rs ++ zeros (2 * (m - rs.length)) ++ recArea (rs.take j)
          ++ u16le (rs.getD j dRec).key.length
          ++ u16le (rs.getD j dRec).val.length)
        ++ ((rs.getD j dRec).key
          ++ ((rs.getD j dRec).val
            ++ (recArea (rs.drop (j + 1))
              ++ zeros (L - (4 + 10 * m + sizeAll rs))))) := by
    simp only [stageNode]
    rw [hsplitr]
    simp [encRec, List.append_assoc]
  have hlenPRE2 : (u16le t ++ u16le m ++ ptrFlat rs ++ zeros (8 * (m - rs.length))
          ++ offFlat 0 rs ++ zeros (2 * (m - rs.length)) ++ recArea (rs.take j)
          ++ u16le (rs.getD j dRec).key.length
          ++ u16le (rs.getD j dRec).val.length).length
      = 4 + 10 * m + sizeAll (rs.take j) + 4 := by
    simp only [List.length_append, u16le_length, ptrFlat_length, zeros_length,
      offFlat_length, recArea_length]
    omega
  have hklensplit : stageNode t m rs L
      = (u16le t ++ u16le m ++ ptrFlat rs ++ zeros (8 * (m - rs.length))
          ++ offFlat 0 rs ++ zeros (2 * (m - rs.length)) ++ recArea (rs.take j))
        ++ (u16le (rs.getD j dRec).key.length
          ++ (u16le (rs.getD j dRec).val.length
            ++ ((rs.getD j dRec).key
              ++ ((rs.getD j dRec).val
                ++ (recArea (rs.drop (j + 1))
                  ++ zeros (L - (4 + 10 * m + sizeAll rs))))))) := by
    simp only [stageNode]
    rw [hsplitr]
    simp [encRec, List.append_assoc]
  have hklen : readU16 (stageNode t m rs L) (4 + 10 * m + sizeAll (rs.take j))
      = (rs.getD j dRec).key.length := by
    rw [hklensplit, readU16_here _ _ _ _
      (by simp only [List.length_append, u16le_length, ptrFlat_length, zeros_length,
            offFlat_length, recArea_length]
          omega)]
    apply Nat.mod_eq_of_lt
    omega
  unfold getKey
  rw [hkv, hklen]
  have hu : u16 (4 + 10 * m + sizeAll (rs.take j) + 4)
      = 4 + 10 * m + sizeAll (rs.take j) + 4 := by
    unfold u16
    apply Nat.mod_eq_of_lt
    omega
  rw [hu, hkeysplit, List.drop_left' hlenPRE2, List.take_left' rfl]

theorem getVal_stage (t m : Nat) (rs : List BEntry) (L j : Nat)
    (hj : j < rs.length) (hlen : rs.length ≤ m)
    (hb : 4 + 10 * m + sizeAll rs ≤ 65535) :
    getVal (stageNode t m rs L) j = (rs.getD j dRec).val := by
  have hrle := sizeAll_rec_le rs j hj
  have hcum := sizeAll_take_le rs j
  have hrec : recSize (rs.getD j dRec)
      = 4 + (rs.getD j dRec).key.length + (rs.getD j dRec).val.length := rfl
  have hkv := kvPos_stage t m rs L j (le_of_lt hj) hlen hb
  have hsplitr : recArea rs
      = recArea (rs.take j)
        ++ (encRec (rs.getD j dRec) ++ recArea (rs.drop (j + 1))) := by
    conv_lhs => rw [rs_split rs j hj]
    rw [recArea_append]
    rfl
  have hklensplit : stageNode t m rs L
      = (u16le t ++ u16le m ++ ptrFlat rs ++ zeros (8 * (m - rs.length))
          ++ offFlat 0 rs ++ zeros (2 * (m - rs.length)) ++ recArea (rs.take j))
        ++ (u16le (rs.getD j dRec).key.length
          ++ (u16le (rs.getD j dRec).val.length
            ++ ((rs.getD j dRec).key
              ++ ((rs.getD j dRec).val
                ++ (recArea (rs.drop (j + 1))
                  ++ zeros (L - (4 + 10 * m + sizeAll rs))))))) := by
    simp only [stageNode]
    rw [hsplitr]
    simp [encRec, List.append_assoc]
  have hklen : readU16 (stageNode t m rs L) (4 + 10 * m + sizeAll (rs.take j))
      = (rs.getD j dRec).key.length := by
    rw [hklensplit, readU16_here _ _ _ _
      (by simp only [List.length_append, u16le_length, ptrFlat_length, zeros_length,
            offFlat_length, recArea_length]
          omega)]
    apply Nat.mod_eq_of_lt
    omega
  have hvlensplit : stageNode t m rs L
      = (u16le t ++ u16le m ++ ptrFlat rs ++ zeros (8 * (m - rs.length))
          ++ offFlat 0 rs ++ zeros (2 * (m - rs.length)) ++ recArea (rs.take j)
          ++ u16le (rs.getD j dRec).key.length)
        ++ (u16le (rs.getD j dRec).val.length
          ++ ((rs.getD j dRec).key
            ++ ((rs.getD j dRec).val
              ++ (recArea (rs.drop (j + 1))
                ++ zeros (L - (4 + 10 * m + sizeAll rs)))))) := by
    simp only [stageNode]
    rw [hsplitr]
    simp [encRec, List.append_assoc]
  have hvlen : readU16 (stageNode t m rs L) (4 + 10 * m + sizeAll (rs.take j) + 2)
      = (rs.getD j dRec).val.length := by
    rw [hvlensplit, readU16_here _ _ _ _
      (by simp only [List.length_append, u16le_length, ptrFlat_length, zeros_length,
            offFlat_length, recArea_length]
          omega)]
    apply Nat.mod_eq_of_lt
    omega
  have hvalsplit : stageNode t m rs L
      = (u16le t ++ u16le m ++ ptrFlat rs ++ zeros (8 * (m - rs.length))
          ++ offFlat 0 rs ++ zeros (2 * (m - rs.length)) ++ recArea (rs.take j)
          ++ u16le (rs.getD j dRec).key.length
          ++ u16le (rs.getD j dRec).val.length
          ++ (rs.getD j dRec).key)
        ++ ((rs.getD j dRec).val
          ++ (recArea (rs.drop (j + 1))
            ++ zeros (L - (4 + 10 * m + sizeAll rs)))) := by
    simp only [stageNode]
    rw [hsplitr]
    simp [encRec, List.append_assoc]
  unfold getVal
  rw [hkv, hklen, hvlen]
  have hu : u16 (4 + 10 * m + sizeAll (rs.take j) + 4 + (rs.getD j dRec).key.length)
      = 4 + 10 * m + sizeAll (rs.take j) + 4 + (rs.getD j dRec).key.length := by
    unfold u16
    apply Nat.mod_eq_of_lt
    omega
  rw [hu, hvalsplit, List.drop_left'
    (by simp only [List.length_append, u16le_length, ptrFlat_length, zeros_length,
          offFlat_length, recArea_length]
        omega),
    List.take_left' rfl]

theorem getPtr_stage (t m : Nat) (rs : List BEntry) (L j : Nat)
    (hj : j < rs.length) (hlen : rs.length ≤ m)
    (hb : 4 + 10 * m + sizeAll rs ≤ 65535) :
    getPtr (stageNode t m rs L) j = (rs.getD j dRec).ptr % 2 ^ 64 := by
  have hsplitp : ptrFlat rs
      = ptrFlat (rs.take j)
        ++ (u64le (rs.getD j dRec).ptr ++ ptrFlat (rs.drop (j + 1))) := by
    conv_lhs => rw [rs_split rs j hj]
    rw [ptrFlat_append]
    rfl
  have hptrsplit : stageNode t m rs L
      = (u16le t ++ u16le m ++ ptrFlat (rs.take j))
        ++ (u64le (rs.getD j dRec).ptr
          ++ (ptrFlat (rs.drop (j + 1))
            ++ (zeros (8 * (m - rs.length))
              ++ (offFlat 0 rs
                ++ (zeros (2 * (m - rs.length))
                  ++ (recArea rs
                    ++ zeros (L - (4 + 10 * m + sizeAll rs)))))))) := by
    simp only [stageNode]
    rw [hsplitp]
    simp [List.append_assoc]
  unfold getPtr
  have hu : u16 (HEADER + 8 * j) = 4 + 8 * j := by
    unfold u16 HEADER
    apply Nat.mod_eq_of_lt
    omega
  rw [hu, hptrsplit, readU64_here _ _ _ _
    (by simp only [List.length_append, u16le_length, ptrFlat_length,
          List.length_take]
        have : min j rs.length = j := by omega
        omega)]

theorem recsOf_encode (t : Nat) (rs : List BEntry) (L src n : Nat)
    (hsn : src + n ≤ rs.length)
    (hptr : ∀ e ∈ rs, e.ptr < 2 ^ 64)
    (hb : 4 + 10 * rs.length + sizeAll rs ≤ 65535) :
    recsOf (encodeNode t rs L) src n = (rs.drop src).take n := by
  induction n generalizing src with
  | zero => rfl
  | succ n ih =>
    have hsrc : src < rs.length := by omega
    have hmem : rs.getD src dRec ∈ rs := by
      rw [List.getD_eq_getElem _ _ hsrc]
      exact List.getElem_mem hsrc
    have hstage : encodeNode t rs L = stageNode t rs.length rs L := rfl
    show (⟨getPtr (encodeNode t rs L) src, getKey (encodeNode t rs L) src,
          getVal (encodeNode t rs L) src⟩ : BEntry)
        :: recsOf (encodeNode t rs L) (src + 1) n = _
    rw [hstage, getPtr_stage t rs.length rs L src hsrc (le_refl _) hb,
      getKey_stage t rs.length rs L src hsrc (le_refl _) hb,
      getVal_stage t rs.length rs L src hsrc (le_refl _) hb,
      Nat.mod_eq_of_lt (hptr _ hmem), ← hstage, ih (src + 1) (by omega)]
    rw [List.drop_eq_getElem_cons hsrc, List.getD_eq_getElem _ _ hsrc]
    rfl

/-- C2: for every well-formed old leaf with records `rs`, every
`idx ≤ rs.length` and every key/value, `leafInsert` into a fresh
zeroed buffer produces a leaf with key count `rs.length + 1` whose
byte image — and hence record sequence — is exactly old's records
`[0, idx)`, then the new `(key, val)` record, then old's records
`[idx, nkeys)` shifted right by one position. -/
theorem leafInsert_correct (rs : List BEntry) (idx : Nat) (key val : List Nat)
    (L Lold : Nat)
    (hidx : idx ≤ rs.length)
    (hptr : ∀ e ∈ rs, e.ptr < 2 ^ 64)
    (hb : 4 + 10 * (rs.length + 1) + sizeAll rs + (4 + key.length + val.length) ≤ 65535)
    (hL : 4 + 10 * (rs.length + 1) + sizeAll rs + (4 + key.length + val.length) ≤ L) :
    leafInsert (zeros L) (encodeNode BNODE_LEAF rs Lold) idx key val
        = encodeNode BNODE_LEAF (rs.take idx ++ ⟨0, key, val⟩ :: rs.drop idx) L
    ∧ nkeys (leafInsert (zeros L) (encodeNode BNODE_LEAF rs Lold) idx key val)
        = rs.length + 1
    ∧ ∀ j, j < rs.length + 1 →
        getKey (leafInsert (zeros L) (encodeNode BNODE_LEAF rs Lold) idx key val) j
          = ((rs.take idx ++ ⟨0, key, val⟩ :: rs.drop idx).getD j dRec).key
        ∧ getVal (leafInsert (zeros L) (encodeNode BNODE_LEAF rs Lold) idx key val) j
          = ((rs.take idx ++ ⟨0, key, val⟩ :: rs.drop idx).getD j dRec).val := by
  have hszr : recSize (⟨0, key, val⟩ : BEntry) = 4 + key.length + val.length := rfl
  have htakeLe := sizeAll_take_le rs idx
  have htakelen : (rs.take idx).length = idx := by
    simp [List.length_take]
    omega
  have hsplitsz : sizeAll (rs.take idx) + sizeAll (rs.drop idx) = sizeAll rs := by
    have h := sizeAll_append (rs.take idx) (rs.drop idx)
    rw [List.take_append_drop] at h
    omega
  have hsznew : sizeAll (rs.take idx ++ ⟨0, key, val⟩ :: rs.drop idx)
      = sizeAll rs + (4 + key.length + val.length) := by
    rw [sizeAll_append]
    show sizeAll (rs.take idx)
        + (recSize ⟨0, key, val⟩ + sizeAll (rs.drop idx)) = _
    rw [hszr]
    omega
  have hlennew : (rs.take idx ++ ⟨0, key, val⟩ :: rs.drop idx).length
      = rs.length + 1 := by
    simp
    omega
  have hmain : leafInsert (zeros L) (encodeNode BNODE_LEAF rs Lold) idx key val
      = encodeNode BNODE_LEAF (rs.take idx ++ ⟨0, key, val⟩ :: rs.drop idx) L := by
    have hnkold : nkeys (encodeNode BNODE_LEAF rs Lold) = rs.length := by
      rw [show encodeNode BNODE_LEAF rs Lold
          = stageNode BNODE_LEAF rs.length rs Lold from rfl, nkeys_stage]
      apply Nat.mod_eq_of_lt
      omega
    simp only [leafInsert]
    rw [hnkold, setHeader_zeros BNODE_LEAF (rs.length + 1) L (by omega)]
    simp only [nodeAppendRange_eq]
    rw [recsOf_encode BNODE_LEAF rs Lold 0 idx (by omega) hptr (by omega),
      recsOf_encode BNODE_LEAF rs Lold idx (rs.length - idx) (by omega) hptr (by omega),
      List.drop_zero]
    have hdropall : (rs.drop idx).take (rs.length - idx) = rs.drop idx := by
      rw [show rs.length - idx = (rs.drop idx).length by simp]
      exact List.take_length _
    rw [hdropall]
    have h1 : appendAll (stageNode BNODE_LEAF (rs.length + 1) [] L) 0 (rs.take idx)
        = stageNode BNODE_LEAF (rs.length + 1) (rs.take idx) L := by
      have h := appendAll_stage BNODE_LEAF (rs.length + 1) L [] (rs.take idx)
        (by simp only [List.length_nil, htakelen]; omega)
        (by show 4 + 10 * (rs.length + 1) + 0 + sizeAll (rs.take idx) ≤ 65535
            omega)
        (by show 4 + 10 * (rs.length + 1) + 0 + sizeAll (rs.take idx) ≤ L
            omega)
      simpa using h
    rw [h1]
    have h2 : nodeAppendKV (stageNode BNODE_LEAF (rs.length + 1) (rs.take idx) L)
          idx 0 key val
        = stageNode BNODE_LEAF (rs.length + 1) (rs.take idx ++ [⟨0, key, val⟩]) L := by
      have h := appendKV_stage BNODE_LEAF (rs.length + 1) (rs.take idx)
        ⟨0, key, val⟩ L
        (by rw [htakelen]; omega)
        (by show 4 + 10 * (rs.length + 1) + sizeAll (rs.take idx)
              + (4 + key.length + val.length) ≤ 65535
            omega)
        (by show 4 + 10 * (rs.length + 1) + sizeAll (rs.take idx)
              + (4 + key.length + val.length) ≤ L
            omega)
      rw [htakelen] at h
      exact h
    rw [h2]
    have h3 : appendAll
          (stageNode BNODE_LEAF (rs.length + 1) (rs.take idx ++ [⟨0, key, val⟩]) L)
          (idx + 1) (rs.drop idx)
        = stageNode BNODE_LEAF (rs.length + 1)
            ((rs.take idx ++ [⟨0, key, val⟩]) ++ rs.drop idx) L := by
      have hlen2 : (rs.take idx ++ [(⟨0, key, val⟩ : BEntry)]).length = idx + 1 := by
        simp [htakelen]
      have hsz2 : sizeAll (rs.take idx ++ [(⟨0, key, val⟩ : BEntry)])
          = sizeAll (rs.take idx) + (4 + key.length + val.length) := by
        rw [sizeAll_append]
        show sizeAll (rs.take idx) + (recSize ⟨0, key, val⟩ + 0) = _
        rw [hszr]
        omega
      have h := appendAll_stage BNODE_LEAF (rs.length + 1) L
        (rs.take idx ++ [⟨0, key, val⟩]) (rs.drop idx)
        (by rw [hlen2]; simp only [List.length_drop]; omega)
        (by rw [hsz2]; omega)
        (by rw [hsz2]; omega)
      rw [hlen2] at h
      exact h
    rw [h3,
      show (rs.take idx ++ [(⟨0, key, val⟩ : BEntry)]) ++ rs.drop idx
        = rs.take idx ++ ⟨0, key, val⟩ :: rs.drop idx by simp]
    show _ = stageNode BNODE_LEAF (rs.take idx ++ ⟨0, key, val⟩ :: rs.drop idx).length
        (rs.take idx ++ ⟨0, key, val⟩ :: rs.drop idx) L
    rw [hlennew]
  have henc : encodeNode BNODE_LEAF (rs.take idx ++ ⟨0, key, val⟩ :: rs.drop idx) L
      = stageNode BNODE_LEAF (rs.length + 1)
          (rs.take idx ++ ⟨0, key, val⟩ :: rs.drop idx) L := by
    show stageNode BNODE_LEAF (rs.take idx ++ ⟨0, key, val⟩ :: rs.drop idx).length
        (rs.take idx ++ ⟨0, key, val⟩ :: rs.drop idx) L = _
    rw [hlennew]
  refine ⟨hmain, ?_, ?_⟩
  · rw [hmain, henc, nkeys_stage]
    apply Nat.mod_eq_of_lt
    omega
  · intro j hj
    constructor
    · rw [hmain, henc]
      exact getKey_stage BNODE_LEAF (rs.length + 1) _ L j
        (by rw [hlennew]; omega) (by rw [hlennew]) (by rw [hsznew]; omega)
    · rw [hmain, henc]
      exact getVal_stage BNODE_LEAF (rs.length + 1) _ L j
        (by rw [hlennew]; omega) (by rw [hlennew]) (by rw [hsznew]; omega)

/-- Witness for C2 at a concrete input. -/
theorem leafInsert_correct_witness :
    leafInsert (zeros 60)
        (encodeNode BNODE_LEAF [⟨0, [1], [10]⟩, ⟨0, [3], [11, 12]⟩] 40) 1 [2] [9]
        = encodeNode BNODE_LEAF
            [⟨0, [1], [10]⟩, ⟨0, [2], [9]⟩, ⟨0, [3], [11, 12]⟩] 60
    ∧ nkeys (leafInsert (zeros 60)
        (encodeNode BNODE_LEAF [⟨0, [1], [10]⟩, ⟨0, [3], [11, 12]⟩] 40) 1 [2] [9]) = 3
    ∧ ∀ j, j < 3 →
        getKey (leafInsert (zeros 60)
            (encodeNode BNODE_LEAF [⟨0, [1], [10]⟩, ⟨0, [3], [11, 12]⟩] 40) 1 [2] [9]) j
          = (([⟨0, [1], [10]⟩, ⟨0, [2], [9]⟩, ⟨0, [3], [11, 12]⟩] : List BEntry).getD j dRec).key
        ∧ getVal (leafInsert (zeros 60)
            (encodeNode BNODE_LEAF [⟨0, [1], [10]⟩, ⟨0, [3], [11, 12]⟩] 40) 1 [2] [9]) j
          = (([⟨0, [1], [10]⟩, ⟨0, [2], [9]⟩, ⟨0, [3], [11, 12]⟩] : List BEntry).getD j dRec).val :=
  leafInsert_correct [⟨0, [1], [10]⟩, ⟨0, [3], [11, 12]⟩] 1 [2] [9] 60 40
    (by decide) (by decide) (by decide) (by decide)

set_option maxHeartbeats 1000000 in
/-- C4: for every well-formed old internal node with records `rs`, every
`idx < rs.length` and non-empty child list, `nodeReplaceKidN` builds an
internal node with key count `rs.length + kids.length - 1` consisting of
old's records `[0, idx)`, then one routing record per child — pointer
the id returned by the page allocator for that child, key the child's
`getKey 0`, empty value — then old's records `[idx+1, nkeys)`. -/
theorem nodeReplaceKidN_correct (tree : BTree) (rs : List BEntry) (idx : Nat)
    (kids : List BNode) (L Lold : Nat)
    (hidx : idx < rs.length)
    (hkids : kids ≠ [])
    (hptr : ∀ e ∈ rs, e.ptr < 2 ^ 64)
    (hb : 4 + 10 * (rs.length + kids.length - 1) + sizeAll rs
        + sizeAll (kids.map fun kid => ⟨tree.new kid, getKey kid 0, []⟩) ≤ 65535)
    (hL : 4 + 10 * (rs.length + kids.length - 1) + sizeAll rs
        + sizeAll (kids.map fun kid => ⟨tree.new kid, getKey kid 0, []⟩) ≤ L) :
    nodeReplaceKidN tree (zeros L) (encodeNode BNODE_NODE rs Lold) idx kids
        = encodeNode BNODE_NODE
            (rs.take idx ++ (kids.map fun kid => ⟨tree.new kid, getKey kid 0, []⟩)
              ++ rs.drop (idx + 1)) L
    ∧ nkeys (nodeReplaceKidN tree (zeros L) (encodeNode BNODE_NODE rs Lold) idx kids)
        = rs.length + kids.length - 1 := by
  set krecs := kids.map (fun kid => (⟨tree.new kid, getKey kid 0, []⟩ : BEntry))
    with hkrecs
  have hk1 : 1 ≤ kids.length := by
    cases kids with
    | nil => exact absurd rfl hkids
    | cons a b => simp
  have htakeLe := sizeAll_take_le rs idx
  have htakelen : (rs.take idx).length = idx := by
    simp [List.length_take]
    omega
  have hs : sizeAll rs = sizeAll (rs.take idx)
      + (recSize (rs.getD idx dRec) + sizeAll (rs.drop (idx + 1))) := by
    conv_lhs => rw [rs_split rs idx hidx]
    rw [sizeAll_append]
    rfl
  have hmaplen : krecs.length = kids.length := by
    rw [hkrecs]
    simp
  have hlennew : (rs.take idx ++ krecs ++ rs.drop (idx + 1)).length
      = rs.length + kids.length - 1 := by
    simp only [List.length_append, htakelen, hmaplen, List.length_drop]
    omega
  have hnkold : nkeys (encodeNode BNODE_NODE rs Lold) = rs.length := by
    rw [show encodeNode BNODE_NODE rs Lold
        = stageNode BNODE_NODE rs.length rs Lold from rfl, nkeys_stage]
    apply Nat.mod_eq_of_lt
    omega
  have hmain : nodeReplaceKidN tree (zeros L) (encodeNode BNODE_NODE rs Lold) idx kids
      = encodeNode BNODE_NODE (rs.take idx ++ krecs ++ rs.drop (idx + 1)) L := by
    simp only [nodeReplaceKidN]
    rw [hnkold, setHeader_zeros BNODE_NODE (rs.length + kids.length - 1) L (by omega)]
    simp only [nodeAppendRange_eq, replaceKidsLoop_eq]
    rw [← hkrecs,
      recsOf_encode BNODE_NODE rs Lold 0 idx (by omega) hptr (by omega),
      recsOf_encode BNODE_NODE rs Lold (idx + 1) (rs.length - (idx + 1))
        (by omega) hptr (by omega),
      List.drop_zero]
    have hdropall : (rs.drop (idx + 1)).take (rs.length - (idx + 1))
        = rs.drop (idx + 1) := by
      rw [show rs.length - (idx + 1) = (rs.drop (idx + 1)).length by simp]
      exact List.take_length _
    rw [hdropall]
    have h1 : appendAll (stageNode BNODE_NODE (rs.length + kids.length - 1) [] L) 0
          (rs.take idx)
        = stageNode BNODE_NODE (rs.length + kids.length - 1) (rs.take idx) L := by
      have h := appendAll_stage BNODE_NODE (rs.length + kids.length - 1) L []
        (rs.take idx)
        (by simp only [List.length_nil, htakelen]; omega)
        (by show 4 + 10 * (rs.length + kids.length - 1) + 0
              + sizeAll (rs.take idx) ≤ 65535
            omega)
        (by show 4 + 10 * (rs.length + kids.length - 1) + 0
              + sizeAll (rs.take idx) ≤ L
            omega)
      simpa using h
    rw [h1]
    have h2 : appendAll
          (stageNode BNODE_NODE (rs.length + kids.length - 1) (rs.take idx) L)
          idx krecs
        = stageNode BNODE_NODE (rs.length + kids.length - 1)
            (rs.take idx ++ krecs) L := by
      have h := appendAll_stage BNODE_NODE (rs.length + kids.length - 1) L
        (rs.take idx) krecs
        (by rw [htakelen, hmaplen]; omega)
        (by omega)
        (by omega)
      rw [htakelen] at h
      exact h
    rw [h2]
    have h3 : appendAll
          (stageNode BNODE_NODE (rs.length + kids.length - 1) (rs.take idx ++ krecs) L)
          (idx + kids.length) (rs.drop (idx + 1))
        = stageNode BNODE_NODE (rs.length + kids.length - 1)
            ((rs.take idx ++ krecs) ++ rs.drop (idx + 1)) L := by
      have hlen2 : (rs.take idx ++ krecs).length = idx + kids.length := by
        simp only [List.length_append, htakelen, hmaplen]
      have hsz2 : sizeAll (rs.take idx ++ krecs)
          = sizeAll (rs.take idx) + sizeAll krecs := sizeAll_append _ _
      have h := appendAll_stage BNODE_NODE (rs.length + kids.length - 1) L
        (rs.take idx ++ krecs) (rs.drop (idx + 1))
        (by rw [hlen2]; simp only [List.length_drop]; omega)
        (by rw [hsz2]; omega)
        (by rw [hsz2]; omega)
      rw [hlen2] at h
      exact h
    rw [h3]
    have hfin : encodeNode BNODE_NODE (rs.take idx ++ krecs ++ rs.drop (idx + 1)) L
        = stageNode BNODE_NODE (rs.length + kids.length - 1)
            (rs.take idx ++ krecs ++ rs.drop (idx + 1)) L := by
      show stageNode BNODE_NODE (rs.take idx ++ krecs ++ rs.drop (idx + 1)).length
          (rs.take idx ++ krecs ++ rs.drop (idx + 1)) L = _
      rw [hlennew]
    rw [hfin]
  refine ⟨hmain, ?_⟩
  rw [hmain,
    show encodeNode BNODE_NODE (rs.take idx ++ krecs ++ rs.drop (idx + 1)) L
      = stageNode BNODE_NODE (rs.take idx ++ krecs ++ rs.drop (idx + 1)).length
          (rs.take idx ++ krecs ++ rs.drop (idx + 1)) L from rfl,
    hlennew, nkeys_stage]
  apply Nat.mod_eq_of_lt
  omega

/-- Witness for C4 at a concrete input: a 3-record internal node whose
middle child is replaced by two freshly allocated children. -/
theorem nodeReplaceKidN_correct_witness :
    nodeReplaceKidN ⟨0, fun _ => [], fun bs => 100 + bs.length, fun _ => ()⟩
        (zeros 70) (encodeNode BNODE_NODE [⟨7, [1], []⟩, ⟨8, [4], []⟩, ⟨9, [7], []⟩] 50)
        1 [encodeNode BNODE_LEAF [⟨0, [4], [1]⟩] 24, encodeNode BNODE_LEAF [⟨0, [6], [2]⟩] 26]
        = encodeNode BNODE_NODE
            [⟨7, [1], []⟩, ⟨124, [4], []⟩, ⟨126, [6], []⟩, ⟨9, [7], []⟩] 70
    ∧ nkeys (nodeReplaceKidN ⟨0, fun _ => [], fun bs => 100 + bs.length, fun _ => ()⟩
        (zeros 70) (encodeNode BNODE_NODE [⟨7, [1], []⟩, ⟨8, [4], []⟩, ⟨9, [7], []⟩] 50)
        1 [encodeNode BNODE_LEAF [⟨0, [4], [1]⟩] 24, encodeNode BNODE_LEAF [⟨0, [6], [2]⟩] 26])
        = 4 :=
  nodeReplaceKidN_correct ⟨0, fun _ => [], fun bs => 100 + bs.length, fun _ => ()⟩
    [⟨7, [1], []⟩, ⟨8, [4], []⟩, ⟨9, [7], []⟩] 1
    [encodeNode BNODE_LEAF [⟨0, [4], [1]⟩] 24, encodeNode BNODE_LEAF [⟨0, [6], [2]⟩] 26]
    70 50 (by decide) (by decide) (by decide) (by decide) (by decide)

/-! ### Lexicographic comparison facts and `nodeLookupLE` -/

theorem cb_eq (a : List Nat) : ∀ b, compareBytes a b = .eq → a = b := by
  induction a with
  | nil =>
    intro b h
    cases b with
    | nil => rfl
    | cons y ys => simp [compareBytes] at h
  | cons x xs ih =>
    intro b h
    cases b with
    | nil => simp [compareBytes] at h
    | cons y ys =>
      simp only [compareBytes] at h
      by_cases hxy : x < y
      · simp [hxy] at h
      · by_cases hyx : y < x
        · simp [hxy, hyx] at h
        · have hxyeq : x = y := by omega
          simp [hxy, hyx] at h
          rw [hxyeq, ih ys h]

theorem cb_swap (a : List Nat) : ∀ b, compareBytes a b = .lt → compareBytes b a = .gt := by
  induction a with
  | nil =>
    intro b h
    cases b with
    | nil => simp [compareBytes] at h
    | cons y ys => simp [compareBytes]
  | cons x xs ih =>
    intro b h
    cases b with
    | nil => simp [compareBytes] at h
    | cons y ys =>
      simp only [compareBytes] at h ⊢
      by_cases hxy : x < y
      · simp [hxy, show ¬ y < x by omega]
      · by_cases hyx : y < x
        · simp [hxy, hyx] at h
        · simp [hxy, hyx] at h
          simp [show ¬ y < x from hyx, show ¬ x < y from hxy]
          exact ih ys h

theorem cb_trans_gt (a : List Nat) :
    ∀ b c, compareBytes a b = .gt → compareBytes b c = .gt → compareBytes a c = .gt := by
  induction a with
  | nil =>
    intro b c h1 h2
    exfalso
    cases b <;> simp [compareBytes] at h1
  | cons x xs ih =>
    intro b c h1 h2
    cases b with
    | nil => cases c <;> simp [compareBytes] at h2
    | cons y ys =>
      cases c with
      | nil => simp [compareBytes]
      | cons z zs =>
        simp only [compareBytes] at h1 h2 ⊢
        by_cases hxy : x < y
        · simp [hxy] at h1
        · by_cases hyz : y < z
          · simp [hyz] at h2
          · by_cases hyx : y < x
            · by_cases hzy : z < y
              · simp [show ¬ x < z by omega, show z < x by omega]
              · have hyzeq : y = z := by omega
                simp [show ¬ x < z by omega, show z < x by omega]
            · have hxyeq : x = y := by omega
              simp [hxy, hyx] at h1
              by_cases hzy : z < y
              · simp [show ¬ x < z by omega, show z < x by omega]
              · have hyzeq : y = z := by omega
                simp [hyz, hzy] at h2
                simp [show ¬ x < z by omega, show ¬ z < x by omega]
                exact ih ys zs h1 h2

theorem lookupGo_spec (node : BNode) (key : List Nat) (n : Nat)
    (hsorted : ∀ j, j < n → ∀ i, i < j →
      compareBytes (getKey node i) (getKey node j) = .lt) :
    ∀ k i, n - i = k → 1 ≤ i → i ≤ n →
    (∀ j, 1 ≤ j → j < i → compareBytes (getKey node j) key = .lt) →
    lookupGo node key n i (i - 1) < n
    ∧ (lookupGo node key n i (i - 1) = 0
        ∨ compareBytes (getKey node (lookupGo node key n i (i - 1))) key ≠ .gt)
    ∧ ∀ j, j < n → compareBytes (getKey node j) key ≠ .gt
        → j ≤ lookupGo node key n i (i - 1) := by
  intro k
  induction k with
  | zero =>
    intro i hk h1 h2 hinv
    have hin : i = n := by omega
    rw [lookupGo, if_neg (by omega)]
    refine ⟨by omega, ?_, by intro j hj _; omega⟩
    rcases Nat.eq_zero_or_pos (i - 1) with h0 | hpos
    · exact Or.inl h0
    · right
      rw [hinv (i - 1) (by omega) (by omega)]
      intro hc
      exact Ordering.noConfusion hc
  | succ k ihk =>
    intro i hk h1 h2 hinv
    have hin : i < n := by omega
    rw [lookupGo, if_pos hin]
    cases hcmp : compareBytes (getKey node i) key with
    | lt =>
      have hrec := ihk (i + 1) (by omega) (by omega) (by omega)
        (by
          intro j hj1 hj2
          rcases Nat.lt_or_ge j i with hj | hj
          · exact hinv j hj1 hj
          · have hji : j = i := by omega
            rw [hji]
            exact hcmp)
      have hsimp : i + 1 - 1 = i := by omega
      rw [hsimp] at hrec
      exact hrec
    | eq =>
      dsimp only
      have hkeq : getKey node i = key := cb_eq _ _ hcmp
      refine ⟨hin, Or.inr (by rw [hcmp]; intro hc; exact Ordering.noConfusion hc), ?_⟩
      intro j hj hle
      by_contra hgt
      have hij : i < j := by omega
      have hlt := hsorted j hj i hij
      have hswap := cb_swap _ _ hlt
      rw [hkeq] at hswap
      exact hle hswap
    | gt =>
      dsimp only
      refine ⟨by omega, ?_, ?_⟩
      · rcases Nat.eq_zero_or_pos (i - 1) with h0 | hpos
        · exact Or.inl h0
        · right
          rw [hinv (i - 1) (by omega) (by omega)]
          intro hc
          exact Ordering.noConfusion hc
      · intro j hj hle
        by_contra hgtj
        have hji : i ≤ j := by omega
        rcases Nat.eq_or_lt_of_le hji with hji' | hji'
        · rw [← hji'] at hle
          exact hle hcmp
        · have hlt := hsorted j hj i hji'
          have hswap := cb_swap _ _ hlt
          exact hle (cb_trans_gt _ _ _ hswap hcmp)

/-- C1: for every node whose keys are strictly increasing and every
target key, `nodeLookupLE` returns the greatest index `i` with
`getKey i ≤ key`, index 0 qualifying unconditionally (it is never
compared). -/
theorem nodeLookupLE_correct (node : BNode) (key : List Nat)
    (hsorted : ∀ j, j < nkeys node → ∀ i, i < j →
      compareBytes (getKey node i) (getKey node j) = .lt) :
    (nodeLookupLE node key = 0
      ∨ (nodeLookupLE node key < nkeys node
        ∧ compareBytes (getKey node (nodeLookupLE node key)) key ≠ .gt))
    ∧ ∀ j, j < nkeys node → compareBytes (getKey node j) key ≠ .gt
        → j ≤ nodeLookupLE node key := by
  rcases Nat.eq_zero_or_pos (nkeys node) with h0 | hpos
  · unfold nodeLookupLE
    rw [lookupGo, if_neg (by omega)]
    exact ⟨Or.inl rfl, by intro j hj _; omega⟩
  · have h := lookupGo_spec node key (nkeys node) hsorted (nkeys node - 1) 1
      (by omega) (le_refl _) hpos (by intro j hj1 hj2; omega)
    unfold nodeLookupLE
    refine ⟨?_, ?_⟩
    · rcases h.2.1 with h1 | h1
      · exact Or.inl h1
      · exact Or.inr ⟨h.1, h1⟩
    · exact h.2.2

/-- C9: on a node with zero keys the lookup loop never runs: it returns
index 0 without any `getKey` bounds assertion firing, yet a caller that
dereferences record 0 of the empty node hits the assertion (the
internal-fault path). -/
theorem nodeLookupLE_empty (node : BNode) (key : List Nat) (h0 : nkeys node = 0) :
    nodeLookupLE node key = 0
    ∧ nodeLookupLEC node key = some 0
    ∧ getKeyC node (nodeLookupLE node key) = none := by
  have h1 : nodeLookupLE node key = 0 := by
    unfold nodeLookupLE
    rw [h0, lookupGo, if_neg (by omega)]
  refine ⟨h1, ?_, ?_⟩
  · unfold nodeLookupLEC
    rw [h0, lookupGoC, if_neg (by omega)]
  · rw [h1]
    unfold getKeyC
    rw [h0]
    simp

/-- Witness for C9 on a concrete empty leaf page. -/
theorem nodeLookupLE_empty_witness :
    nodeLookupLE (encodeNode BNODE_LEAF [] 8) [1] = 0
    ∧ nodeLookupLEC (encodeNode BNODE_LEAF [] 8) [1] = some 0
    ∧ getKeyC (encodeNode BNODE_LEAF [] 8) (nodeLookupLE (encodeNode BNODE_LEAF [] 8) [1])
        = none :=
  nodeLookupLE_empty (encodeNode BNODE_LEAF [] 8) [1] (by decide)

/-! ### Writes do not disturb bytes outside their range -/

theorem writeBytes_length (b : BNode) (p : Nat) (s : List Nat) :
    (writeBytes b p s).length = b.length := by
  induction s generalizing b p with
  | nil => rfl
  | cons x xs ih =>
    show (writeBytes (b.set p x) (p + 1) xs).length = _
    rw [ih, List.length_set]

theorem nodeAppendKV_length (b : BNode) (idx ptr : Nat) (key val : List Nat) :
    (nodeAppendKV b idx ptr key val).length = b.length := by
  simp only [nodeAppendKV, setOffset, setPtr, writeU16, writeU64, writeBytes_length]

theorem getD_writeBytes_outside (b : BNode) (p : Nat) (s : List Nat) (q : Nat)
    (h : q < p ∨ p + s.length ≤ q) :
    (writeBytes b p s).getD q 0 = b.getD q 0 := by
  induction s generalizing b p with
  | nil => rfl
  | cons x xs ih =>
    show (writeBytes (b.set p x) (p + 1) xs).getD q 0 = _
    rw [ih (b.set p x) (p + 1) (by simp at h; omega)]
    simp only [List.getD_eq_getElem?_getD]
    rw [List.getElem?_set_ne (by simp at h; omega)]

theorem readU16_write_outside (b : BNode) (p : Nat) (s : List Nat) (q : Nat)
    (h : q + 2 ≤ p ∨ p + s.length ≤ q) :
    readU16 (writeBytes b p s) q = readU16 b q := by
  unfold readU16 readByte
  rw [getD_writeBytes_outside b p s q (by omega),
    getD_writeBytes_outside b p s (q + 1) (by omega)]

set_option maxHeartbeats 800000 in
/-- C10: `nodeAppendKV` converts `len(key)` and `len(val)` to 16-bit
values, so the stored length fields are the lengths modulo 2^16 for
arbitrarily large inputs; the function is total and never grows or
shrinks the buffer — no error is raised at this layer. -/
theorem nodeAppendKV_truncates (t m : Nat) (rs : List BEntry) (ptr : Nat)
    (key val : List Nat) (L : Nat)
    (hk : rs.length < m)
    (hb : 4 + 10 * m + sizeAll rs ≤ 65535)
    (hwrap : 4 + 10 * m + sizeAll rs + 4 + key.length % 65536 < 65536)
    (hL : 4 + 10 * m + sizeAll rs + 4 ≤ L) :
    readU16 (nodeAppendKV (stageNode t m rs L) rs.length ptr key val)
        (4 + 10 * m + sizeAll rs) = key.length % 65536
    ∧ readU16 (nodeAppendKV (stageNode t m rs L) rs.length ptr key val)
        (4 + 10 * m + sizeAll rs + 2) = val.length % 65536
    ∧ (nodeAppendKV (stageNode t m rs L) rs.length ptr key val).length
        = (stageNode t m rs L).length := by
  have hm : m < 65536 := by omega
  -- Step A: the pointer write (identical to the staged-append analysis).
  have h1 : stageNode t m rs L
      = (u16le t ++ u16le m ++ ptrFlat rs)
        ++ (zeros (8 * (m - rs.length))
          ++ (offFlat 0 rs
            ++ (zeros (2 * (m - rs.length))
              ++ (recArea rs ++ zeros (L - (4 + 10 * m + sizeAll rs)))))) := by
    simp [stageNode, List.append_assoc]
  have hlen1 : (4:Nat) + 8 * rs.length = (u16le t ++ u16le m ++ ptrFlat rs).length := by
    simp only [List.length_append, u16le_length, ptrFlat_length]
    try omega
  have hpos1 : u16 (HEADER + 8 * rs.length) = 4 + 8 * rs.length := by
    unfold u16 HEADER
    apply Nat.mod_eq_of_lt
    omega
  have stepA : setPtr (stageNode t m rs L) rs.length ptr
      = (u16le t ++ u16le m ++ ptrFlat rs)
        ++ (u64le ptr
          ++ (zeros (8 * (m - rs.length) - 8)
            ++ (offFlat 0 rs
              ++ (zeros (2 * (m - rs.length))
                ++ (recArea rs ++ zeros (L - (4 + 10 * m + sizeAll rs))))))) := by
    unfold setPtr writeU64
    rw [h1, hpos1,
      seg_fill _ _ _ _ _ hlen1 (by simp only [u64le_length]; omega)]
    simp only [u64le_length]
  have hn1 : (u16le t ++ u16le m ++ ptrFlat rs)
        ++ (u64le ptr
          ++ (zeros (8 * (m - rs.length) - 8)
            ++ (offFlat 0 rs
              ++ (zeros (2 * (m - rs.length))
                ++ (recArea rs ++ zeros (L - (4 + 10 * m + sizeAll rs)))))))
      = u16le t ++ (u16le m
          ++ ((ptrFlat rs ++ u64le ptr ++ zeros (8 * (m - rs.length) - 8))
            ++ (offFlat 0 rs
              ++ (zeros (2 * (m - rs.length))
                ++ (recArea rs ++ zeros (L - (4 + 10 * m + sizeAll rs))))))) := by
    simp [List.append_assoc]
  have hP1 : (ptrFlat rs ++ u64le ptr ++ zeros (8 * (m - rs.length) - 8)).length
      = 8 * m := by
    simp only [List.length_append, ptrFlat_length, u64le_length, zeros_length]
    omega
  have hposB : kvPos ((u16le t ++ u16le m ++ ptrFlat rs)
        ++ (u64le ptr
          ++ (zeros (8 * (m - rs.length) - 8)
            ++ (offFlat 0 rs
              ++ (zeros (2 * (m - rs.length))
                ++ (recArea rs ++ zeros (L - (4 + 10 * m + sizeAll rs)))))))) rs.length
      = 4 + 10 * m + sizeAll rs := by
    rw [hn1, kvPos_seg t m _ rs _ rs.length hP1 (le_refl _) (by omega) (by omega),
      List.take_length]
  -- Step B: the two length fields land at the start of the free area.
  have h2group : (u16le t ++ u16le m ++ ptrFlat rs)
        ++ (u64le ptr
          ++ (zeros (8 * (m - rs.length) - 8)
            ++ (offFlat 0 rs
              ++ (zeros (2 * (m - rs.length))
                ++ (recArea rs ++ zeros (L - (4 + 10 * m + sizeAll rs)))))))
      = (u16le t ++ u16le m ++ ptrFlat rs ++ u64le ptr
          ++ zeros (8 * (m - rs.length) - 8) ++ offFlat 0 rs
          ++ zeros (2 * (m - rs.length)) ++ recArea rs)
        ++ (zeros (L - (4 + 10 * m + sizeAll rs)) ++ []) := by
    simp [List.append_assoc]
  have hlen2 : (4:Nat) + 10 * m + sizeAll rs
      = (u16le t ++ u16le m ++ ptrFlat rs ++ u64le ptr
          ++ zeros (8 * (m - rs.length) - 8) ++ offFlat 0 rs
          ++ zeros (2 * (m - rs.length)) ++ recArea rs).length := by
    simp only [List.length_append, u16le_length, ptrFlat_length, u64le_length,
      zeros_length, offFlat_length, recArea_length]
    omega
  have hklen : readU16 (writeBytes ((u16le t ++ u16le m ++ ptrFlat rs)
        ++ (u64le ptr
          ++ (zeros (8 * (m - rs.length) - 8)
            ++ (offFlat 0 rs
              ++ (zeros (2 * (m - rs.length))
                ++ (recArea rs ++ zeros (L - (4 + 10 * m + sizeAll rs))))))))
        (4 + 10 * m + sizeAll rs) (u16le key.length))
        (4 + 10 * m + sizeAll rs) = key.length % 65536 := by
    rw [h2group, seg_fill _ _ _ _ _ hlen2 (by simp only [u16le_length]; omega)]
    exact readU16_here _ _ _ _ hlen2
  have hvlen : readU16 (writeBytes (writeBytes ((u16le t ++ u16le m ++ ptrFlat rs)
        ++ (u64le ptr
          ++ (zeros (8 * (m - rs.length) - 8)
            ++ (offFlat 0 rs
              ++ (zeros (2 * (m - rs.length))
                ++ (recArea rs ++ zeros (L - (4 + 10 * m + sizeAll rs))))))))
        (4 + 10 * m + sizeAll rs) (u16le key.length))
        (4 + 10 * m + sizeAll rs + 2) (u16le val.length))
        (4 + 10 * m + sizeAll rs + 2) = val.length % 65536 := by
    rw [h2group, seg_fill _ _ _ _ _ hlen2 (by simp only [u16le_length]; omega)]
    simp only [u16le_length]
    have hregroup : (u16le t ++ u16le m ++ ptrFlat rs ++ u64le ptr
          ++ zeros (8 * (m - rs.length) - 8) ++ offFlat 0 rs
          ++ zeros (2 * (m - rs.length)) ++ recArea rs)
        ++ (u16le key.length
          ++ (zeros (L - (4 + 10 * m + sizeAll rs) - 2) ++ []))
        = ((u16le t ++ u16le m ++ ptrFlat rs ++ u64le ptr
          ++ zeros (8 * (m - rs.length) - 8) ++ offFlat 0 rs
          ++ zeros (2 * (m - rs.length)) ++ recArea rs)
          ++ u16le key.length)
        ++ (zeros (L - (4 + 10 * m + sizeAll rs) - 2) ++ []) := by
      simp [List.append_assoc]
    have hlen3 : (4:Nat) + 10 * m + sizeAll rs + 2
        = ((u16le t ++ u16le m ++ ptrFlat rs ++ u64le ptr
          ++ zeros (8 * (m - rs.length) - 8) ++ offFlat 0 rs
          ++ zeros (2 * (m - rs.length)) ++ recArea rs)
          ++ u16le key.length).length := by
      simp only [List.length_append, u16le_length, ptrFlat_length, u64le_length,
        zeros_length, offFlat_length, recArea_length]
      omega
    rw [hregroup, seg_fill _ _ _ _ _ hlen3 (by simp only [u16le_length]; omega)]
    exact readU16_here _ _ _ _ hlen3
  -- unfold nodeAppendKV and discharge the later writes with the
  -- outside-range lemmas
  simp only [nodeAppendKV, writeU16, setOffset]
  rw [stepA, hposB]
  have hu2 : u16 (4 + 10 * m + sizeAll rs + 2) = 4 + 10 * m + sizeAll rs + 2 := by
    unfold u16
    apply Nat.mod_eq_of_lt
    omega
  have hu4 : u16 (4 + 10 * m + sizeAll rs + 4) = 4 + 10 * m + sizeAll rs + 4 := by
    unfold u16
    apply Nat.mod_eq_of_lt
    omega
  have huw : u16 (4 + 10 * m + sizeAll rs + 4 + u16 key.length)
      = 4 + 10 * m + sizeAll rs + 4 + key.length % 65536 := by
    unfold u16
    apply Nat.mod_eq_of_lt
    omega
  rw [hu2, hu4, huw]
  set N1 := (u16le t ++ u16le m ++ ptrFlat rs)
        ++ (u64le ptr
          ++ (zeros (8 * (m - rs.length) - 8)
            ++ (offFlat 0 rs
              ++ (zeros (2 * (m - rs.length))
                ++ (recArea rs ++ zeros (L - (4 + 10 * m + sizeAll rs)))))))
    with hN1
  set n2 := writeBytes N1 (4 + 10 * m + sizeAll rs) (u16le key.length) with hn2
  set n3 := writeBytes n2 (4 + 10 * m + sizeAll rs + 2) (u16le val.length) with hn3
  set n4 := writeBytes n3 (4 + 10 * m + sizeAll rs + 4) key with hn4
  set n5 := writeBytes n4 (4 + 10 * m + sizeAll rs + 4 + key.length % 65536) val
    with hn5
  have hnkN1 : nkeys N1 = m := by
    rw [hN1,
      show (u16le t ++ u16le m ++ ptrFlat rs)
          ++ (u64le ptr
            ++ (zeros (8 * (m - rs.length) - 8)
              ++ (offFlat 0 rs
                ++ (zeros (2 * (m - rs.length))
                  ++ (recArea rs ++ zeros (L - (4 + 10 * m + sizeAll rs)))))))
        = u16le t ++ u16le m
          ++ (ptrFlat rs
            ++ (u64le ptr
              ++ (zeros (8 * (m - rs.length) - 8)
                ++ (offFlat 0 rs
                  ++ (zeros (2 * (m - rs.length))
                    ++ (recArea rs ++ zeros (L - (4 + 10 * m + sizeAll rs))))))))
        by simp [List.append_assoc],
      nkeys_seg, Nat.mod_eq_of_lt hm]
  have hnk5 : nkeys n5 = m := by
    unfold nkeys
    rw [hn5, readU16_write_outside _ _ _ _ (by omega),
      hn4, readU16_write_outside _ _ _ _ (by omega),
      hn3, readU16_write_outside _ _ _ _ (by omega),
      hn2, readU16_write_outside _ _ _ _ (by omega)]
    exact hnkN1
  have hopE : offsetPos n5 (rs.length + 1) = 4 + 8 * m + 2 * rs.length := by
    unfold offsetPos
    rw [hnk5]
    unfold u16 HEADER
    have he : rs.length + 1 - 1 = rs.length := by omega
    rw [he]
    apply Nat.mod_eq_of_lt
    omega
  rw [hopE]
  refine ⟨?_, ?_, ?_⟩
  · rw [readU16_write_outside _ _ _ _ (by simp only [u16le_length]; omega),
      hn5, readU16_write_outside _ _ _ _ (by omega),
      hn4, readU16_write_outside _ _ _ _ (by omega),
      hn3, readU16_write_outside _ _ _ _ (by simp only [u16le_length]; omega),
      hn2, hN1]
    exact hklen
  · rw [readU16_write_outside _ _ _ _ (by simp only [u16le_length]; omega),
      hn5, readU16_write_outside _ _ _ _ (by omega),
      hn4, readU16_write_outside _ _ _ _ (by omega),
      hn3, hn2, hN1]
    exact hvlen
  · rw [writeBytes_length, hn5, writeBytes_length, hn4, writeBytes_length,
      hn3, writeBytes_length, hn2, writeBytes_length, ← stepA]
    simp only [setPtr, writeU64, writeBytes_length]

/-- Witness for C10 at a concrete input. -/
theorem nodeAppendKV_truncates_witness :
    readU16 (nodeAppendKV (stageNode 2 1 [] 20) 0 0 [7, 8] [9]) 14 = 2 % 65536
    ∧ readU16 (nodeAppendKV (stageNode 2 1 [] 20) 0 0 [7, 8] [9]) 16 = 1 % 65536
    ∧ (nodeAppendKV (stageNode 2 1 [] 20) 0 0 [7, 8] [9]).length
        = (stageNode 2 1 [] 20).length :=
  nodeAppendKV_truncates 2 1 [] 0 [7, 8] [9] 20
    (by decide) (by decide) (by decide) (by decide)

theorem readU16_klen_stage (t m : Nat) (rs : List BEntry) (L j : Nat)
    (hj : j < rs.length) (hlen : rs.length ≤ m)
    (hb : 4 + 10 * m + sizeAll rs ≤ 65535) :
    readU16 (stageNode t m rs L) (4 + 10 * m + sizeAll (rs.take j))
      = (rs.getD j dRec).key.length := by
  have hrle := sizeAll_rec_le rs j hj
  have hcum := sizeAll_take_le rs j
  have hrec : recSize (rs.getD j dRec)
      = 4 + (rs.getD j dRec).key.length + (rs.getD j dRec).val.length := rfl
  have hsplitr : recArea rs
      = recArea (rs.take j)
        ++ (encRec (rs.getD j dRec) ++ recArea (rs.drop (j + 1))) := by
    conv_lhs => rw [rs_split rs j hj]
    rw [recArea_append]
    rfl
  have hklensplit : stageNode t m rs L
      = (u16le t ++ u16le m ++ ptrFlat rs ++ zeros (8 * (m - rs.length))
          ++ offFlat 0 rs ++ zeros (2 * (m - rs.length)) ++ recArea (rs.take j))
        ++ (u16le (rs.getD j dRec).key.length
          ++ (u16le (rs.getD j dRec).val.length
            ++ ((rs.getD j dRec).key
              ++ ((rs.getD j dRec).val
                ++ (recArea (rs.drop (j + 1))
                  ++ zeros (L - (4 + 10 * m + sizeAll rs))))))) := by
    simp only [stageNode]
    rw [hsplitr]
    simp [encRec, List.append_assoc]
  rw [hklensplit, readU16_here _ _ _ _
    (by simp only [List.length_append, u16le_length, ptrFlat_length, zeros_length,
          offFlat_length, recArea_length]
        omega)]
  apply Nat.mod_eq_of_lt
  omega

theorem readU16_vlen_stage (t m : Nat) (rs : List BEntry) (L j : Nat)
    (hj : j < rs.length) (hlen : rs.length ≤ m)
    (hb : 4 + 10 * m + sizeAll rs ≤ 65535) :
    readU16 (stageNode t m rs L) (4 + 10 * m + sizeAll (rs.take j) + 2)
      = (rs.getD j dRec).val.length := by
  have hrle := sizeAll_rec_le rs j hj
  have hcum := sizeAll_take_le rs j
  have hrec : recSize (rs.getD j dRec)
      = 4 + (rs.getD j dRec).key.length + (rs.getD j dRec).val.length := rfl
  have hsplitr : recArea rs
      = recArea (rs.take j)
        ++ (encRec (rs.getD j dRec) ++ recArea (rs.drop (j + 1))) := by
    conv_lhs => rw [rs_split rs j hj]
    rw [recArea_append]
    rfl
  have hvlensplit : stageNode t m rs L
      = (u16le t ++ u16le m ++ ptrFlat rs ++ zeros (8 * (m - rs.length))
          ++ offFlat 0 rs ++ zeros (2 * (m - rs.length)) ++ recArea (rs.take j)
          ++ u16le (rs.getD j dRec).key.length)
        ++ (u16le (rs.getD j dRec).val.length
          ++ ((rs.getD j dRec).key
            ++ ((rs.getD j dRec).val
              ++ (recArea (rs.drop (j + 1))
                ++ zeros (L - (4 + 10 * m + sizeAll rs)))))) := by
    simp only [stageNode]
    rw [hsplitr]
    simp [encRec, List.append_assoc]
  rw [hvlensplit, readU16_here _ _ _ _
    (by simp only [List.length_append, u16le_length, ptrFlat_length, zeros_length,
          offFlat_length, recArea_length]
        omega)]
  apply Nat.mod_eq_of_lt
  omega

/-- C6: one `nodeAppendKV` on a freshly built node writes the record at
`kvPos(idx)` as a 16-bit key length, a 16-bit value length, the key
bytes, then the value bytes, and sets `offset[idx+1]` to
`offset[idx] + 4 + len(key) + len(val)`; `getOffset 0` is always 0 (the
slot is implicit and never stored). -/
theorem nodeAppendKV_correct (t m : Nat) (rs : List BEntry) (ptr : Nat)
    (key val : List Nat) (L : Nat)
    (hk : rs.length < m)
    (hb : 4 + 10 * m + sizeAll rs + (4 + key.length + val.length) ≤ 65535)
    (hL : 4 + 10 * m + sizeAll rs + (4 + key.length + val.length) ≤ L) :
    readU16 (nodeAppendKV (stageNode t m rs L) rs.length ptr key val)
        (kvPos (stageNode t m rs L) rs.length) = key.length
    ∧ readU16 (nodeAppendKV (stageNode t m rs L) rs.length ptr key val)
        (kvPos (stageNode t m rs L) rs.length + 2) = val.length
    ∧ getKey (nodeAppendKV (stageNode t m rs L) rs.length ptr key val) rs.length = key
    ∧ getVal (nodeAppendKV (stageNode t m rs L) rs.length ptr key val) rs.length = val
    ∧ getPtr (nodeAppendKV (stageNode t m rs L) rs.length ptr key val) rs.length
        = ptr % 2 ^ 64
    ∧ getOffset (nodeAppendKV (stageNode t m rs L) rs.length ptr key val) (rs.length + 1)
        = getOffset (stageNode t m rs L) rs.length + 4 + (key.length + val.length)
    ∧ ∀ b : BNode, getOffset b 0 = 0 := by
  have happ := appendKV_stage t m rs ⟨ptr, key, val⟩ L hk
    (by show 4 + 10 * m + sizeAll rs + (4 + key.length + val.length) ≤ 65535; omega)
    (by show 4 + 10 * m + sizeAll rs + (4 + key.length + val.length) ≤ L; omega)
  have happ' : nodeAppendKV (stageNode t m rs L) rs.length ptr key val
      = stageNode t m (rs ++ [⟨ptr, key, val⟩]) L := happ
  have hszr : recSize (⟨ptr, key, val⟩ : BEntry) = 4 + key.length + val.length := rfl
  have hlen' : (rs ++ [(⟨ptr, key, val⟩ : BEntry)]).length = rs.length + 1 := by simp
  have hsz' : sizeAll (rs ++ [(⟨ptr, key, val⟩ : BEntry)])
      = sizeAll rs + (4 + key.length + val.length) := by
    rw [sizeAll_append]
    show sizeAll rs + (recSize ⟨ptr, key, val⟩ + 0) = _
    rw [hszr]
    omega
  have hTake : (rs ++ [(⟨ptr, key, val⟩ : BEntry)]).take rs.length = rs :=
    List.take_left rs _
  have hGetD : (rs ++ [(⟨ptr, key, val⟩ : BEntry)]).getD rs.length dRec
      = ⟨ptr, key, val⟩ := by
    rw [List.getD_append_right _ _ _ _ (le_refl _), Nat.sub_self]
    rfl
  have hkv : kvPos (stageNode t m rs L) rs.length = 4 + 10 * m + sizeAll rs := by
    rw [kvPos_stage t m rs L rs.length (le_refl _) (by omega) (by omega),
      List.take_length]
  have hjj : rs.length < (rs ++ [(⟨ptr, key, val⟩ : BEntry)]).length := by
    rw [hlen']
    omega
  have hlenm : (rs ++ [(⟨ptr, key, val⟩ : BEntry)]).length ≤ m := by
    rw [hlen']
    omega
  have hbm : 4 + 10 * m + sizeAll (rs ++ [(⟨ptr, key, val⟩ : BEntry)]) ≤ 65535 := by
    rw [hsz']
    omega
  refine ⟨?_, ?_, ?_, ?_, ?_, ?_, ?_⟩
  · rw [happ', hkv]
    have h := readU16_klen_stage t m (rs ++ [⟨ptr, key, val⟩]) L rs.length hjj hlenm hbm
    rw [hTake, hGetD] at h
    exact h
  · rw [happ', hkv]
    have h := readU16_vlen_stage t m (rs ++ [⟨ptr, key, val⟩]) L rs.length hjj hlenm hbm
    rw [hTake, hGetD] at h
    exact h
  · rw [happ']
    have h := getKey_stage t m (rs ++ [⟨ptr, key, val⟩]) L rs.length hjj hlenm hbm
    rw [hGetD] at h
    exact h
  · rw [happ']
    have h := getVal_stage t m (rs ++ [⟨ptr, key, val⟩]) L rs.length hjj hlenm hbm
    rw [hGetD] at h
    exact h
  · rw [happ']
    have h := getPtr_stage t m (rs ++ [⟨ptr, key, val⟩]) L rs.length hjj hlenm hbm
    rw [hGetD] at h
    exact h
  · rw [happ',
      getOffset_stage t m (rs ++ [(⟨ptr, key, val⟩ : BEntry)]) L (rs.length + 1)
        (by rw [hlen']) hlenm hbm,
      getOffset_stage t m rs L rs.length (le_refl _) (by omega) (by omega),
      List.take_length,
      show (rs ++ [(⟨ptr, key, val⟩ : BEntry)]).take (rs.length + 1)
        = rs ++ [⟨ptr, key, val⟩] by
          rw [← hlen']
          exact List.take_length _,
      hsz']
    omega
  · intro b
    unfold getOffset
    simp

/-- Witness for C6 at a concrete input. -/
theorem nodeAppendKV_correct_witness :
    readU16 (nodeAppendKV (stageNode 2 2 [⟨0, [1], [5]⟩] 40) 1 3 [7, 8] [9])
        (kvPos (stageNode 2 2 [⟨0, [1], [5]⟩] 40) 1) = 2
    ∧ readU16 (nodeAppendKV (stageNode 2 2 [⟨0, [1], [5]⟩] 40) 1 3 [7, 8] [9])
        (kvPos (stageNode 2 2 [⟨0, [1], [5]⟩] 40) 1 + 2) = 1
    ∧ getKey (nodeAppendKV (stageNode 2 2 [⟨0, [1], [5]⟩] 40) 1 3 [7, 8] [9]) 1 = [7, 8]
    ∧ getVal (nodeAppendKV (stageNode 2 2 [⟨0, [1], [5]⟩] 40) 1 3 [7, 8] [9]) 1 = [9]
    ∧ getPtr (nodeAppendKV (stageNode 2 2 [⟨0, [1], [5]⟩] 40) 1 3 [7, 8] [9]) 1
        = 3 % 2 ^ 64
    ∧ getOffset (nodeAppendKV (stageNode 2 2 [⟨0, [1], [5]⟩] 40) 1 3 [7, 8] [9]) 2
        = getOffset (stageNode 2 2 [⟨0, [1], [5]⟩] 40) 1 + 4 + (2 + 1)
    ∧ ∀ b : BNode, getOffset b 0 = 0 :=
  nodeAppendKV_correct 2 2 [⟨0, [1], [5]⟩] 3 [7, 8] [9] 40
    (by decide) (by decide) (by decide)

/-- Witness for C1 on a concrete sorted 3-key node, seeking key `[4]`. -/
theorem nodeLookupLE_correct_witness :
    (nodeLookupLE (encodeNode BNODE_LEAF [⟨0, [1], [5]⟩, ⟨0, [3], [6]⟩, ⟨0, [5], [7]⟩] 52)
          [4] = 0
      ∨ (nodeLookupLE (encodeNode BNODE_LEAF
            [⟨0, [1], [5]⟩, ⟨0, [3], [6]⟩, ⟨0, [5], [7]⟩] 52) [4]
          < nkeys (encodeNode BNODE_LEAF [⟨0, [1], [5]⟩, ⟨0, [3], [6]⟩, ⟨0, [5], [7]⟩] 52)
        ∧ compareBytes
            (getKey (encodeNode BNODE_LEAF [⟨0, [1], [5]⟩, ⟨0, [3], [6]⟩, ⟨0, [5], [7]⟩] 52)
              (nodeLookupLE (encodeNode BNODE_LEAF
                [⟨0, [1], [5]⟩, ⟨0, [3], [6]⟩, ⟨0, [5], [7]⟩] 52) [4]))
            [4] ≠ .gt))
    ∧ ∀ j, j < nkeys (encodeNode BNODE_LEAF
          [⟨0, [1], [5]⟩, ⟨0, [3], [6]⟩, ⟨0, [5], [7]⟩] 52) →
        compareBytes
          (getKey (encodeNode BNODE_LEAF [⟨0, [1], [5]⟩, ⟨0, [3], [6]⟩, ⟨0, [5], [7]⟩] 52) j)
          [4] ≠ .gt →
        j ≤ nodeLookupLE (encodeNode BNODE_LEAF
          [⟨0, [1], [5]⟩, ⟨0, [3], [6]⟩, ⟨0, [5], [7]⟩] 52) [4] :=
  nodeLookupLE_correct
    (encodeNode BNODE_LEAF [⟨0, [1], [5]⟩, ⟨0, [3], [6]⟩, ⟨0, [5], [7]⟩] 52) [4]
    (by decide)

/-- Counterexample for C5 as stated: in a one-key leaf the record does
not sit at `header + 2*key_count + offset[0]` (= 6); `kvPos` reserves
the 8-byte-per-key pointer region even for leaves, placing it at 14. -/
theorem kvPos_leaf_counterexample :
    btype (encodeNode BNODE_LEAF [⟨0, [7], [9]⟩] 20) = BNODE_LEAF
    ∧ kvPos (encodeNode BNODE_LEAF [⟨0, [7], [9]⟩] 20) 0
        ≠ HEADER + 2 * nkeys (encodeNode BNODE_LEAF [⟨0, [7], [9]⟩] 20)
          + getOffset (encodeNode BNODE_LEAF [⟨0, [7], [9]⟩] 20) 0
    ∧ kvPos (encodeNode BNODE_LEAF [⟨0, [7], [9]⟩] 20) 0 = 14
    ∧ readU16 (encodeNode BNODE_LEAF [⟨0, [7], [9]⟩] 20) 14 = 1
    ∧ readU16 (encodeNode BNODE_LEAF [⟨0, [7], [9]⟩] 20) 6 = 0 := by
  decide

/-- C5 amended: the child-pointer table region is reserved in leaf
nodes as well, so for every well-formed leaf the i-th record's byte
position is `header(4) + 8*key_count + 2*key_count + offset[i]`, and
the record's length field and key bytes really are at that position. -/
theorem kvPos_leaf_layout (rs : List BEntry) (L j : Nat)
    (hj : j < rs.length)
    (hb : 4 + 10 * rs.length + sizeAll rs ≤ 65535) :
    btype (encodeNode BNODE_LEAF rs L) = BNODE_LEAF
    ∧ kvPos (encodeNode BNODE_LEAF rs L) j
        = HEADER + 8 * rs.length + 2 * rs.length + sizeAll (rs.take j)
    ∧ readU16 (encodeNode BNODE_LEAF rs L) (kvPos (encodeNode BNODE_LEAF rs L) j)
        = (rs.getD j dRec).key.length
    ∧ getKey (encodeNode BNODE_LEAF rs L) j = (rs.getD j dRec).key := by
  have hkv : kvPos (encodeNode BNODE_LEAF rs L) j
      = 4 + 10 * rs.length + sizeAll (rs.take j) :=
    kvPos_stage BNODE_LEAF rs.length rs L j (le_of_lt hj) (le_refl _) hb
  refine ⟨?_, ?_, ?_, ?_⟩
  · rw [show encodeNode BNODE_LEAF rs L = stageNode BNODE_LEAF rs.length rs L from rfl,
      btype_stage]
    decide
  · rw [hkv]
    unfold HEADER
    omega
  · rw [hkv]
    exact readU16_klen_stage BNODE_LEAF rs.length rs L j hj (le_refl _) hb
  · exact getKey_stage BNODE_LEAF rs.length rs L j hj (le_refl _) hb

/-- Witness for the amended C5 at a concrete one-record leaf. -/
theorem kvPos_leaf_layout_witness :
    btype (encodeNode BNODE_LEAF [⟨0, [7], [9]⟩] 20) = BNODE_LEAF
    ∧ kvPos (encodeNode BNODE_LEAF [⟨0, [7], [9]⟩] 20) 0
        = HEADER + 8 * 1 + 2 * 1 + sizeAll (([⟨0, [7], [9]⟩] : List BEntry).take 0)
    ∧ readU16 (encodeNode BNODE_LEAF [⟨0, [7], [9]⟩] 20)
        (kvPos (encodeNode BNODE_LEAF [⟨0, [7], [9]⟩] 20) 0) = 1
    ∧ getKey (encodeNode BNODE_LEAF [⟨0, [7], [9]⟩] 20) 0 = [7] :=
  kvPos_leaf_layout [⟨0, [7], [9]⟩] 20 0 (by decide) (by decide)

/-- C7: oversized keys and values are rejected with the named error
before any page operation is performed; the tree state is untouched. -/
theorem treeInsert_rejects_oversized
    (doInsert : TreeState → List Nat → List Nat → TreeState × List PageOp)
    (st : TreeState) (key val : List Nat) :
    (BTREE_MAX_KEY_SIZE < key.length →
      treeInsert doInsert st key val = (.error .KeyTooLarge, []))
    ∧ (key.length ≤ BTREE_MAX_KEY_SIZE → BTREE_MAX_VAL_SIZE < val.length →
      treeInsert doInsert st key val = (.error .ValueTooLarge, [])) := by
  constructor
  · intro h
    unfold treeInsert
    rw [if_pos h]
  · intro h1 h2
    unfold treeInsert
    rw [if_neg (by omega), if_pos h2]

/-- Witness for C7: a 1001-byte key and a 3001-byte value are rejected. -/
theorem treeInsert_rejects_witness :
    treeInsert (fun st _ _ => (st, [])) ⟨0, []⟩ (List.replicate 1001 0) []
        = (.error .KeyTooLarge, [])
    ∧ treeInsert (fun st _ _ => (st, [])) ⟨0, []⟩ [1] (List.replicate 3001 0)
        = (.error .ValueTooLarge, []) :=
  ⟨(treeInsert_rejects_oversized (fun st _ _ => (st, [])) ⟨0, []⟩
      (List.replicate 1001 0) []).1
    (by rw [List.length_replicate]; decide),
   (treeInsert_rejects_oversized (fun st _ _ => (st, [])) ⟨0, []⟩
      [1] (List.replicate 3001 0)).2
    (by decide) (by rw [List.length_replicate]; decide)⟩

theorem sizeAll_pair (a b : BEntry) : sizeAll [a, b] = recSize a + recSize b := by
  show recSize a + (recSize b + 0) = _
  omega

theorem nkeys_zeros (n : Nat) : nkeys (zeros n) = 0 := by
  unfold nkeys readU16
  rw [readByte_zeros, readByte_zeros]

theorem nbytes_zeros (n : Nat) : nbytes (zeros n) = 4 := by
  unfold nbytes kvPos
  rw [nkeys_zeros]
  simp [getOffset, u16, HEADER]

/-- C3 (code bug): `nodeSplit2` has an empty body, so on an oversized
node — here a well-formed 8032-byte leaf holding two maximal records —
`nodeSplit3` returns two zero-filled pages with zero keys instead of
two non-empty parts carrying the original records. -/
theorem nodeSplit3_stub_bug :
    4096 < nbytes (encodeNode BNODE_LEAF
        [⟨0, List.replicate 1000 1, List.replicate 3000 2⟩,
         ⟨0, List.replicate 1000 3, List.replicate 3000 4⟩] 8032)
    ∧ nodeSplit3 (encodeNode BNODE_LEAF
        [⟨0, List.replicate 1000 1, List.replicate 3000 2⟩,
         ⟨0, List.replicate 1000 3, List.replicate 3000 4⟩] 8032)
        = (2, [zeros BTREE_PAGE_SIZE, zeros BTREE_PAGE_SIZE])
    ∧ ∀ part ∈ (nodeSplit3 (encodeNode BNODE_LEAF
        [⟨0, List.replicate 1000 1, List.replicate 3000 2⟩,
         ⟨0, List.replicate 1000 3, List.replicate 3000 4⟩] 8032)).2,
        nkeys part = 0 := by
  have hr1 : recSize (⟨0, List.replicate 1000 1, List.replicate 3000 2⟩ : BEntry)
      = 4004 := by
    unfold recSize
    rw [List.length_replicate, List.length_replicate]
  have hr2 : recSize (⟨0, List.replicate 1000 3, List.replicate 3000 4⟩ : BEntry)
      = 4004 := by
    unfold recSize
    rw [List.length_replicate, List.length_replicate]
  have hsz : sizeAll
      [(⟨0, List.replicate 1000 1, List.replicate 3000 2⟩ : BEntry),
       ⟨0, List.replicate 1000 3, List.replicate 3000 4⟩] = 8008 := by
    rw [sizeAll_pair, hr1, hr2]
  have hnk : nkeys (encodeNode BNODE_LEAF
      [⟨0, List.replicate 1000 1, List.replicate 3000 2⟩,
       ⟨0, List.replicate 1000 3, List.replicate 3000 4⟩] 8032) = 2 := by
    rw [show encodeNode BNODE_LEAF
        [(⟨0, List.replicate 1000 1, List.replicate 3000 2⟩ : BEntry),
         ⟨0, List.replicate 1000 3, List.replicate 3000 4⟩] 8032
      = stageNode BNODE_LEAF 2
        [⟨0, List.replicate 1000 1, List.replicate 3000 2⟩,
         ⟨0, List.replicate 1000 3, List.replicate 3000 4⟩] 8032 from rfl,
      nkeys_stage]
  have hnb : nbytes (encodeNode BNODE_LEAF
      [⟨0, List.replicate 1000 1, List.replicate 3000 2⟩,
       ⟨0, List.replicate 1000 3, List.replicate 3000 4⟩] 8032) = 8032 := by
    unfold nbytes
    rw [hnk,
      show encodeNode BNODE_LEAF
        [(⟨0, List.replicate 1000 1, List.replicate 3000 2⟩ : BEntry),
         ⟨0, List.replicate 1000 3, List.replicate 3000 4⟩] 8032
      = stageNode BNODE_LEAF 2
        [⟨0, List.replicate 1000 1, List.replicate 3000 2⟩,
         ⟨0, List.replicate 1000 3, List.replicate 3000 4⟩] 8032 from rfl,
      kvPos_stage BNODE_LEAF 2 _ 8032 2 (by decide) (by decide)
        (by rw [hsz]; decide),
      show ([(⟨0, List.replicate 1000 1, List.replicate 3000 2⟩ : BEntry),
         ⟨0, List.replicate 1000 3, List.replicate 3000 4⟩]).take 2
        = [(⟨0, List.replicate 1000 1, List.replicate 3000 2⟩ : BEntry),
         ⟨0, List.replicate 1000 3, List.replicate 3000 4⟩] from rfl,
      hsz]
  have htk : (zeros (2 * BTREE_PAGE_SIZE)).take BTREE_PAGE_SIZE
      = zeros BTREE_PAGE_SIZE := by
    unfold zeros
    rw [List.take_replicate]
    rw [show min BTREE_PAGE_SIZE (2 * BTREE_PAGE_SIZE) = BTREE_PAGE_SIZE by
      simp [Nat.min_def, BTREE_PAGE_SIZE]]
  have hsplit : nodeSplit3 (encodeNode BNODE_LEAF
      [⟨0, List.replicate 1000 1, List.replicate 3000 2⟩,
       ⟨0, List.replicate 1000 3, List.replicate 3000 4⟩] 8032)
      = (2, [zeros BTREE_PAGE_SIZE, zeros BTREE_PAGE_SIZE]) := by
    unfold nodeSplit3
    rw [hnb, if_neg (by decide)]
    simp only [nodeSplit2]
    rw [if_pos (by rw [nbytes_zeros]; decide), htk]
  refine ⟨by rw [hnb]; decide, hsplit, ?_⟩
  rw [hsplit]
  intro part hp
  simp only [List.mem_cons, List.not_mem_nil, or_false] at hp
  rcases hp with hp | hp
  · rw [hp, nkeys_zeros]
  · rw [hp, nkeys_zeros]
